import Mathlib

/-!
Verification of the hato-bot-go weather-image pipeline.

This file gives a shallow embedding, in Lean 4, of the algorithmic core of the
repository: the Web-Mercator coordinate projector, the rasterizer (Bresenham
line drawing and filled-circle markers), the timestamp-discovery merge, the
lightning-data decoding, the compositor, the location resolver and the
command parser.  Each definition is translated from the Go source; machine
floating point is modelled either with Lean `Float` (where the claim is about
the literal float64 formula) or with exact rationals together with abstract
transcendental functions (where the claim does not depend on rounding).
Stateful HTTP traffic is modelled by an explicit client function from
requests to responses.

String operations are implemented structurally over `List Char` (rather than
through the well-founded-recursion loops of core `String`) so that all
definitions reduce inside the kernel; each helper states which Go function it
models.
-/

namespace HatoBot

/-! ## Go string helpers -/

/-- Character-level whitespace test, modelling Go `unicode.IsSpace` on the
characters this repository actually handles. -/
def wsChar (c : Char) : Bool := c.isWhitespace

/-- Both-ends whitespace trim on character lists, modelling Go
`strings.TrimSpace`. -/
def trimChars (l : List Char) : List Char :=
  ((l.dropWhile wsChar).reverse.dropWhile wsChar).reverse

/-- Helper for `goFieldsChars`: split at whitespace characters, accumulating
the current field in reverse. -/
def splitWsAux : List Char → List Char → List (List Char)
  | [], acc => [acc.reverse]
  | c :: cs, acc =>
      if wsChar c then acc.reverse :: splitWsAux cs []
      else splitWsAux cs (c :: acc)

/-- Go `strings.Fields`: the maximal non-empty runs of non-whitespace
characters. -/
def goFieldsChars (l : List Char) : List (List Char) :=
  (splitWsAux l []).filter (fun w => w ≠ [])

/-- Go `strings.Fields` on `String`. -/
def goFields (s : String) : List String :=
  (goFieldsChars s.data).map (fun l => ⟨l⟩)

/-- `ParseResult` from lib/misskey/misskey.go: result of parsing an amesh
command. -/
structure ParseResult where
  Place : String
  IsAmesh : Bool
deriving DecidableEq, Repr

/-- `ParseAmeshCommand` from lib/misskey/misskey.go (lines 392-426): trim the
text, drop @-mention tokens, rejoin with single spaces, then recognize the
`amesh [place]` prefix grammar with default place 東京.  `strings.HasPrefix`
is `List.isPrefixOf`, `strings.TrimPrefix` of the six-character prefix
"amesh " is `List.drop 6`, and `strings.Join(…, " ")` is
`List.intercalate [' ']`. -/
def ParseAmeshCommand (text : String) : ParseResult :=
  let cs := trimChars text.data
  let words := goFieldsChars cs
  let cleanWords := words.filter (fun w => !(['@'].isPrefixOf w))
  let cs := List.intercalate [' '] cleanWords
  if "amesh ".data.isPrefixOf cs then
    { Place := ⟨trimChars (cs.drop 6)⟩, IsAmesh := true }
  else if cs = "amesh".data then
    { Place := "東京", IsAmesh := true }
  else
    { Place := "", IsAmesh := false }

/-- The cleaning phase of the command grammar, stated from the spec's words
(§4.7 steps 1-2): trim surrounding whitespace, tokenize on whitespace, drop
every token beginning with `@`, rejoin with single spaces. -/
def cleanedCommandText (text : String) : List Char :=
  List.intercalate [' ']
    ((goFieldsChars (trimChars text.data)).filter (fun w => !(['@'].isPrefixOf w)))

/-- The whole parser, stated from the spec's words (§4.7 steps 3-5) on top of
the cleaned text. -/
def parseAmeshSpec (text : String) : ParseResult :=
  let cleaned := cleanedCommandText text
  if "amesh ".data.isPrefixOf cleaned then
    { Place := ⟨trimChars (cleaned.drop 6)⟩, IsAmesh := true }
  else if cleaned = "amesh".data then
    { Place := "東京", IsAmesh := true }
  else
    { Place := "", IsAmesh := false }

/-! ## Rasterizer data model

Go's `*image.RGBA` canvas is modelled as a rectangle anchored at the origin
(the source always allocates `image.Rect(0, 0, size, size)`), with the pixel
array as a total function.  The rasterizer never panics in this model by
construction: every write is guarded by the source's own bounds test, exactly
as in the Go code. -/

structure Color where
  r : Nat
  g : Nat
  b : Nat
  a : Nat
deriving DecidableEq, Repr

structure RGBAImage where
  width : Int
  height : Int
  pix : Int → Int → Color

/-- The in-canvas test `0 <= x && 0 <= y && x < img.Bounds().Dx() && y < img.Bounds().Dy()`
used by the drawing loops of the source. -/
def RGBAImage.inCanvas (img : RGBAImage) (x y : Int) : Prop :=
  0 ≤ x ∧ 0 ≤ y ∧ x < img.width ∧ y < img.height

instance (img : RGBAImage) (x y : Int) : Decidable (img.inCanvas x y) := by
  unfold RGBAImage.inCanvas; infer_instance

/-- Unconditional pixel update. -/
def RGBAImage.setPix (img : RGBAImage) (x y : Int) (c : Color) : RGBAImage :=
  { img with pix := fun a b => if a = x ∧ b = y then c else img.pix a b }

/-- A pixel write guarded by the source's bounds test: out-of-canvas
coordinates are a no-op. -/
def setGuarded (img : RGBAImage) (x y : Int) (c : Color) : RGBAImage :=
  if img.inCanvas x y then img.setPix x y c else img

/-- Two's-complement wrap-around of Go's 64-bit `int`: the representative of
`n` modulo `2^64` lying in `[-2^63, 2^63)`.  Every arithmetic operation of
the Bresenham loop is performed through this wrap, exactly as Go `int`
arithmetic wraps on overflow. -/
def wrap64 (n : Int) : Int := (n + 2 ^ 63) % 2 ^ 64 - 2 ^ 63

/-- `abs` from the source, over Go's wrapping `int`: `if x < 0 { return -x }`
where the negation wraps, so `abs(-2^63) = -2^63` stays negative. -/
def goAbs (x : Int) : Int := if x < 0 then wrap64 (-x) else x

/-- `drawLineParams` from part_008. -/
structure drawLineParams where
  Img : RGBAImage
  X1 : Int
  Y1 : Int
  X2 : Int
  Y2 : Int
  Col : Color

/-- State of the Bresenham loop in `drawLine`. -/
structure LineState where
  x : Int
  y : Int
  delta : Int
  img : RGBAImage

def lineDx (p : drawLineParams) : Int := goAbs (wrap64 (p.X2 - p.X1))
def lineDy (p : drawLineParams) : Int := goAbs (wrap64 (p.Y2 - p.Y1))
def lineSx (p : drawLineParams) : Int := if p.X2 < p.X1 then -1 else 1
def lineSy (p : drawLineParams) : Int := if p.Y2 < p.Y1 then -1 else 1

/-- The non-break part of one iteration of the `drawLine` loop (part_008
lines 656-664): write the current pixel, then apply the two delta-error
conditional steps, both tested against the same `d2 := 2 * delta`.  All
arithmetic is Go `int` arithmetic, i.e. wrapping 64-bit. -/
def lineNext (p : drawLineParams) (dx dy sx sy : Int) (s : LineState) : LineState :=
  let img1 := setGuarded s.img s.x s.y p.Col
  let d2 := wrap64 (2 * s.delta)
  let s1 : LineState :=
    if wrap64 (-dy) < d2 then
      { s with x := wrap64 (s.x + sx), delta := wrap64 (s.delta - dy), img := img1 }
    else { s with img := img1 }
  if d2 < dx then { s1 with y := wrap64 (s1.y + sy), delta := wrap64 (s1.delta + dx) }
  else s1

/-- One-for-one transcription of the `for` loop of `drawLine` (part_008
lines 647-665), iterated on explicit fuel.  The Go loop has no fuel; `none`
models running beyond the given fuel without breaking.
`drawLineGo_reaches` below proves that fuel `dx + dy + 1` suffices for all
canvas-sized endpoints — the termination of the source loop there — while
`drawLine_wrap_nontermination` exhibits a wrapping endpoint pair on which
no fuel ever suffices, i.e. the source loop runs forever.  On the `break`
path the final state is returned, whose point is exactly `(X2, Y2)`. -/
def drawLineGo (p : drawLineParams) (dx dy sx sy : Int) :
    Nat → LineState → Option LineState
  | 0, _ => none
  | fuel + 1, s =>
      if s.x = p.X2 ∧ s.y = p.Y2 then
        some { s with img := setGuarded s.img s.x s.y p.Col }
      else
        drawLineGo p dx dy sx sy fuel (lineNext p dx dy sx sy s)

/-- Fuel sufficient for the Bresenham loop on bounded endpoints (proved in
`drawLineGo_reaches`). -/
def lineFuel (p : drawLineParams) : Nat := (lineDx p + lineDy p).toNat + 1

def lineInit (p : drawLineParams) : LineState :=
  { x := p.X1, y := p.Y1, delta := wrap64 (lineDx p - lineDy p), img := p.Img }

/-- `drawLine` from part_008 (lines 630-666): integer Bresenham line
drawing with the delta-error method, writing `Col` to each visited
in-canvas pixel.  The `none` fallback returns the canvas unchanged; by
`drawLineGo_reaches` it is never taken for endpoints within canvas range
(for wrapping endpoints the source itself never returns). -/
def drawLine (p : drawLineParams) : RGBAImage :=
  match drawLineGo p (lineDx p) (lineDy p) (lineSx p) (lineSy p) (lineFuel p) (lineInit p) with
  | some s => s.img
  | none => p.Img

/-- The loop at `p` never reaches its `break` at any fuel: the source loop
runs forever on these inputs. -/
def LineLoopDiverges (p : drawLineParams) : Prop :=
  ∀ fuel : Nat,
    drawLineGo p (lineDx p) (lineDy p) (lineSx p) (lineSy p) fuel (lineInit p) = none

/-- Endpoints within canvas range: all four coordinates in
`[-2^29, 2^29]`, far below any 64-bit wrap (every coordinate the compositor
ever draws at is orders of magnitude smaller). -/
def LineBounded (p : drawLineParams) : Prop :=
  -(2 ^ 29) ≤ p.X1 ∧ p.X1 ≤ 2 ^ 29 ∧ -(2 ^ 29) ≤ p.X2 ∧ p.X2 ≤ 2 ^ 29 ∧
  -(2 ^ 29) ≤ p.Y1 ∧ p.Y1 ≤ 2 ^ 29 ∧ -(2 ^ 29) ≤ p.Y2 ∧ p.Y2 ≤ 2 ^ 29

instance (p : drawLineParams) : Decidable (LineBounded p) := by
  unfold LineBounded; infer_instance

/-- The offsets visited by the circle-fill loop of `drawLightningMarker`
(part_008 lines 697-708): `dy` from `-radius` to `radius` in the outer loop,
`dx` in the inner loop, skipping offsets with `radius*radius < dx*dx+dy*dy`. -/
def circleOffsets (radius : Nat) : List (Int × Int) :=
  (List.range (2 * radius + 1)).flatMap (fun a : Nat =>
    (List.range (2 * radius + 1)).filterMap (fun b : Nat =>
      if (radius : Int) * radius <
          ((b : Int) - radius) * ((b : Int) - radius) +
            ((a : Int) - radius) * ((a : Int) - radius) then none
      else some ((b : Int) - radius, (a : Int) - radius)))

/-- Sequential guarded writes of one color, as the fill loop performs them. -/
def writePoints (img : RGBAImage) (pts : List (Int × Int)) (c : Color) : RGBAImage :=
  pts.foldl (fun im q => setGuarded im q.1 q.2 c) img

/-- The filled-circle marker drawer: the raster phase of `drawLightningMarker`
(part_008 lines 692-708), taking the already-projected integer canvas
coordinates of the marker center.  Radius is fixed at 7 in the source. -/
def drawCircleFill (img : RGBAImage) (imgX imgY : Int) (c : Color) : RGBAImage :=
  writePoints img ((circleOffsets 7).map (fun d => (imgX + d.1, imgY + d.2))) c

/-- The fixed marker color `color.RGBA{G: 255, B: 255, A: 255}` of the
source. -/
def lightningColor : Color := { r := 0, g := 255, b := 255, a := 255 }

/-! ## Web-Mercator projector (float64 model)

The projector is pure float64 arithmetic; Lean `Float` is IEEE-754 binary64,
the same arithmetic as Go `float64`. -/

/-- Go `math.Pi` (the float64 value of the constant). -/
def mathPi : Float := 3.141592653589793

/-- `deg2rad` from the source: `degrees * math.Pi / 180`. -/
def deg2radF (degrees : Float) : Float := degrees * mathPi / 180

/-- `getWebMercatorPixel` from part_007 lines 389-398 (same formula in
part_008 lines 538-546 and part_009 lines 362-370): float64 Web-Mercator
projection with the defensive zoom clamp, `zoomFactor` computed as
`float64(int(1) << uint(zoom))`. -/
def getWebMercatorPixel (lat lng : Float) (zoom : Int) : Float × Float :=
  if zoom < 0 ∨ 30 < zoom then (0, 0)
  else
    (256.0 * Float.ofNat (1 <<< zoom.toNat) * (lng + 180) / 360.0,
     256.0 * Float.ofNat (1 <<< zoom.toNat) *
       (0.5 - Float.log (Float.tan (mathPi / 4 + deg2radF lat / 2)) / (2.0 * mathPi)))

/-! ## Pixel-to-tile conversion (exact-value model)

`getTileFromPixel` applies Go's `int(...)` conversion to `pixelX/256`.  The
conversion rounds toward zero (Go language spec: "conversion of a
floating-point number to an integer discards the fraction").  The pixel
values are modelled as exact rationals so that the rounding mode itself is
what the theorems are about. -/

/-- Go's float64-to-int conversion: truncation toward zero. -/
def goIntOfRat (q : ℚ) : Int := if 0 ≤ q then ⌊q⌋ else ⌈q⌉

/-- `getTileFromPixel` from part_007 lines 400-403:
`int(pixelX / 256), int(pixelY / 256)`; the same conversion is inlined at
part_008 line 148. -/
def getTileFromPixel (pixelX pixelY : ℚ) : Int × Int :=
  (goIntOfRat (pixelX / 256), goIntOfRat (pixelY / 256))

/-! ## HTTP model

The injected HTTP client (`lib/http.Client`, used through `Get`/`Do`) is a
function from requests to outcomes: either a transport error or a response
with a status code and a body.  Requests are identified by endpoint and
parameters (the source builds the URL strings with `fmt.Sprintf` from
exactly these parameters).  Bodies are modelled post-decoding: a body is
one of the payload shapes the adapters know how to decode, or `malformed`;
`json.Unmarshal`/`image.Decode` succeed exactly on the matching shape. -/

/-- `timeJSONElement` from part_008 lines 102-106: one record of a
targetTimes index document. -/
structure TimeJSONElement where
  BaseTime : String
  ValidTime : String
  Elements : List String
deriving DecidableEq, Repr

/-- One geocoding result (`result.Feature` entry of part_008 lines 305-312). -/
structure GeoFeature where
  Name : String
  Coordinates : String
deriving DecidableEq, Repr

/-- The geocoding response shape of part_008 lines 305-312. -/
structure GeoResponse where
  Feature : List GeoFeature
deriving DecidableEq, Repr

/-- One GeoJSON lightning feature (part_008 lines 500-509): the raw
coordinate array (GeoJSON order: lng, lat, optional extras) and
`properties.type` (field renamed `Typ`; `Type` is reserved in Lean). -/
structure LightningFeature where
  Coordinates : List ℚ
  Typ : Int
deriving DecidableEq, Repr

/-- `lightningPoint` from part_008 lines 109-113 (field `Type` renamed
`Typ`).  Geographic values are modelled as exact rationals. -/
structure lightningPoint where
  Lat : ℚ
  Lng : ℚ
  Typ : Int
deriving DecidableEq, Repr

/-- A decoded 256x256 tile image, as a pixel function. -/
def Tile : Type := Int → Int → Color

/-- A response body, already classified by which decoder accepts it. -/
inductive Body where
  | timeData (elems : List TimeJSONElement)
  | geo (resp : GeoResponse)
  | lightning (features : List LightningFeature)
  | tile (t : Tile)
  | malformed

/-- `json.Unmarshal` into `[]timeJSONElement`: succeeds iff the body is a
well-formed targetTimes document. -/
def Body.decodeTimeData : Body → Option (List TimeJSONElement)
  | .timeData l => some l
  | _ => none

/-- `json.Unmarshal` into the geocoding result struct. -/
def Body.decodeGeo : Body → Option GeoResponse
  | .geo r => some r
  | _ => none

/-- `json.Unmarshal` into the lightning GeoJSON struct. -/
def Body.decodeLightning : Body → Option (List LightningFeature)
  | .lightning l => some l
  | _ => none

/-- `image.Decode` of a tile body. -/
def Body.decodeTile : Body → Option Tile
  | .tile t => some t
  | _ => none

/-- The endpoints the pipeline requests, identified by their URL
parameters. -/
inductive AmeshURL where
  | targetTimes (n : Nat)
  | lightningData (timestamp : String)
  | baseTile (zoom tileX tileY : Int)
  | radarTile (timestamp : String) (zoom tileX tileY : Int)
  | geocode (apiKey place : String)

/-- An HTTP response: status code and body. -/
structure Resp where
  status : Nat
  body : Body

/-- The injected HTTP client: transport error or response, per request. -/
def Client : Type := AmeshURL → Except Unit Resp

/-- `makeHTTPRequest` from part_008 lines 402-421: transport errors
propagate; a non-200 status yields the empty result (`IsEmpty`, body nil);
a 200 status yields the body. -/
def makeHTTPRequest (client : Client) (url : AmeshURL) : Except Unit (Option Body) :=
  match client url with
  | .error e => .error e
  | .ok resp => if resp.status ≠ 200 then .ok none else .ok (some resp.body)

/-- `fetchTimeDataFromURLWithClient` from part_008 lines 424-439. -/
def fetchTimeDataFromURLWithClient (client : Client) (apiURL : AmeshURL) :
    Except String (List TimeJSONElement) :=
  match makeHTTPRequest client apiURL with
  | .error _ => .error "Failed to makeHTTPRequest"
  | .ok none => .error "Body is nil"
  | .ok (some b) =>
      match b.decodeTimeData with
      | none => .error "Failed to json.Unmarshal"
      | some timeData => .ok timeData

/-- The three fixed targetTimes index endpoints (part_008 lines 443-447). -/
def timeIndexURLs : List AmeshURL :=
  [.targetTimes 1, .targetTimes 2, .targetTimes 3]

/-- The record-collection loop of `getLatestTimestampsWithClient`
(part_008 lines 449-458): fetch each index endpoint, skip failures,
concatenate. -/
def collectTimeData (client : Client) : List TimeJSONElement :=
  timeIndexURLs.foldl (fun acc u =>
    match fetchTimeDataFromURLWithClient client u with
    | .error _ => acc
    | .ok td => acc ++ td) []

/-- The per-record step of the latest-timestamp search (part_008 lines
472-481): records with `BaseTime != ValidTime` are skipped; otherwise the
inner loop over `Elements` promotes `latest` to `BaseTime` when the element
matches and `latest < BaseTime` (Go string comparison, i.e. lexicographic). -/
def latestForRecord (element : String) (td : TimeJSONElement) (latest : String) : String :=
  if td.BaseTime ≠ td.ValidTime then latest
  else td.Elements.foldl
    (fun l e => if e = element ∧ l < td.BaseTime then td.BaseTime else l) latest

/-- The full latest-timestamp search for one element (part_008 lines
470-482), starting from the empty string. -/
def latestTimestampFor (element : String) (tds : List TimeJSONElement) : String :=
  tds.foldl (fun l td => latestForRecord element td l) ""

/-- `getLatestTimestampsWithClient` from part_008 lines 442-486.  The Go
function builds `map[string]bool` of all distinct elements and then a
`map[string]string` of results; maps are modelled as association lists
(iteration order of a Go map is unspecified and does not influence the
result). -/
def getLatestTimestampsWithClient (client : Client) : List (String × String) :=
  ((collectTimeData client).flatMap (fun td => td.Elements)).dedup.map
    (fun e => (e, latestTimestampFor e (collectTimeData client)))

/-- Go map read `m[k]` with the zero-value `""` default for missing keys. -/
def mapGet (m : List (String × String)) (k : String) : String :=
  match m.find? (fun p => p.1 == k) with
  | some p => p.2
  | none => ""

/-- The TimestampMap value stated from the spec's words (§3, §4.4): for an
element, the lexicographically greatest `BaseTime` among records with
`BaseTime == ValidTime` whose `Elements` contain the element (empty string
when there is none). -/
def specLatestTimestamp (element : String) (tds : List TimeJSONElement) : String :=
  ((tds.filter (fun td =>
      decide (td.BaseTime = td.ValidTime ∧ element ∈ td.Elements))).map
    (fun td => td.BaseTime)).foldl max ""

/-- `getLightningDataWithClient` from part_008 lines 489-527: empty result
(non-200) yields an empty list; decode failures are errors; each feature
with at least two coordinates becomes a point with `lat = Coordinates[1]`,
`lng = Coordinates[0]`, shorter coordinate arrays are skipped. -/
def getLightningDataWithClient (client : Client) (timestamp : String) :
    Except String (List lightningPoint) :=
  match makeHTTPRequest client (.lightningData timestamp) with
  | .error _ => .error "Failed to makeHTTPRequest"
  | .ok none => .ok []
  | .ok (some b) =>
      match b.decodeLightning with
      | none => .error "Failed to json.Unmarshal"
      | some features => .ok (features.filterMap (fun f =>
          match f.Coordinates with
          | lng :: lat :: _ => some { Lat := lat, Lng := lng, Typ := f.Typ }
          | _ => none))

/-- `downloadTileWithClient` from part_008 lines 549-575: transport errors
and non-200 statuses are errors; the body must decode as an image. -/
def downloadTileWithClient (client : Client) (tileURL : AmeshURL) :
    Except String Tile :=
  match client tileURL with
  | .error _ => .error "Failed to Do"
  | .ok resp =>
      if resp.status ≠ 200 then .error "tile download failed: non-200 status"
      else
        match resp.body.decodeTile with
        | none => .error "Failed to image.Decode"
        | some t => .ok t

/-- The x formula stated from the spec's words (§4.1):
`x = 256 * 2^zoom * (lng + 180) / 360`. -/
def webMercatorSpecX (lng : Float) (zoom : Int) : Float :=
  256.0 * Float.ofNat (2 ^ zoom.toNat) * (lng + 180) / 360.0

/-- The y formula stated from the spec's words (§4.1):
`y = 256 * 2^zoom * (0.5 - ln(tan(pi/4 + lat_rad/2)) / (2*pi))` with
`lat_rad = lat * pi / 180`. -/
def webMercatorSpecY (lat : Float) (zoom : Int) : Float :=
  256.0 * Float.ofNat (2 ^ zoom.toNat) *
    (0.5 - Float.log (Float.tan (mathPi / 4 + (lat * mathPi / 180) / 2)) / (2.0 * mathPi))

/-! ## Compositor (exact-value geometry model)

The compositor's float64 geometry is modelled over exact rationals, with
the transcendental functions (`math.Log`, `math.Tan`, `math.Cos`,
`math.Sin`) and the constant `math.Pi` abstracted into a `FloatModel`: the
compositor claims proved below hold for every interpretation of these
functions, hence in particular for the IEEE-754 one. -/

/-- Abstract interpretation of the transcendental float64 functions used by
the geometry. -/
structure FloatModel where
  log : ℚ → ℚ
  tan : ℚ → ℚ
  cos : ℚ → ℚ
  sin : ℚ → ℚ
  pi : ℚ

/-- `deg2rad` over the exact-value model. -/
def deg2radQ (fm : FloatModel) (degrees : ℚ) : ℚ := degrees * fm.pi / 180

/-- `getWebMercatorPixel` (part_008 lines 538-546) over the exact-value
model: the same formula as the float64 `getWebMercatorPixel` above, with
`math.Log`/`math.Tan` read from the `FloatModel`. -/
def getWebMercatorPixelQ (fm : FloatModel) (lat lng : ℚ) (zoom : Int) : ℚ × ℚ :=
  if zoom < 0 ∨ 30 < zoom then (0, 0)
  else
    (256 * ((2 ^ zoom.toNat : Nat) : ℚ) * (lng + 180) / 360,
     256 * ((2 ^ zoom.toNat : Nat) : ℚ) *
       (1 / 2 - fm.log (fm.tan (fm.pi / 4 + deg2radQ fm lat / 2)) / (2 * fm.pi)))

/-- `CreateImageRequest` from part_008 lines 39-44. -/
structure CreateImageRequest where
  Lat : ℚ
  Lng : ℚ
  Zoom : Int
  AroundTiles : Int

/-- White, the canvas background fill (part_008 line 155). -/
def whiteColor : Color := { r := 255, g := 255, b := 255, a := 255 }

/-- Gray, the distance-ring color (part_008 line 201). -/
def grayColor : Color := { r := 100, g := 100, b := 100, a := 255 }

/-- Porter-Duff `over` on 8-bit straight-alpha colors (integer fixed-point
model of Go's `draw.Over`; no claim inspects blended channel values). -/
def overBlend (src dst : Color) : Color :=
  { r := (src.r * src.a + dst.r * (255 - src.a)) / 255,
    g := (src.g * src.a + dst.g * (255 - src.a)) / 255,
    b := (src.b * src.a + dst.b * (255 - src.a)) / 255,
    a := src.a + dst.a * (255 - src.a) / 255 }

/-- Uniform alpha mask applied to a source color (Go `draw.DrawMask` with a
uniform `color.RGBA{..., A: alpha}` mask). -/
def maskColor (c : Color) (alpha : Nat) : Color :=
  { c with a := c.a * alpha / 255 }

/-- `draw.Draw(img, destRect, tile, image.Point{}, draw.Over)`: blend the
tile over the destination rectangle `[x0, x1) × [y0, y1)`, clipped to the
canvas. -/
def drawTileOver (img : RGBAImage) (x0 y0 x1 y1 : Int) (t : Tile) : RGBAImage :=
  { img with pix := fun a b =>
      if x0 ≤ a ∧ a < x1 ∧ y0 ≤ b ∧ b < y1 ∧ img.inCanvas a b then
        overBlend (t (a - x0) (b - y0)) (img.pix a b)
      else img.pix a b }

/-- `draw.DrawMask(img, destRect, tile, ..., uniform alpha mask, draw.Over)`
(part_008 line 190): like `drawTileOver` with the source attenuated by the
uniform mask alpha. -/
def drawTileMask (img : RGBAImage) (x0 y0 x1 y1 : Int) (t : Tile) (alpha : Nat) :
    RGBAImage :=
  { img with pix := fun a b =>
      if x0 ≤ a ∧ a < x1 ∧ y0 ≤ b ∧ b < y1 ∧ img.inCanvas a b then
        overBlend (maskColor (t (a - x0) (b - y0)) alpha) (img.pix a b)
      else img.pix a b }

/-- Go `for v := lo; v <= hi; v++` iteration values. -/
def rangeInt (lo hi : Int) : List Int :=
  (List.range (hi - lo + 1).toNat).map (fun k => lo + (k : Int))

/-- `drawDistanceCircle` from part_008 lines 579-626: 64 line segments
approximating a geographic circle of `radiusKm` around the request center;
endpoints are computed with the small-angle formulas of the source,
projected, translated to canvas coordinates (`imageSize/2` is exact Go
integer division) and drawn with `drawLine`. -/
def drawDistanceCircle (fm : FloatModel) (img : RGBAImage) (req : CreateImageRequest)
    (radiusKm : ℚ) (col : Color) : RGBAImage :=
  (List.range 64).foldl (fun im i =>
    let angle1 : ℚ := (i : ℚ) * 2 * fm.pi / 64
    let angle2 : ℚ := ((i : ℚ) + 1) * 2 * fm.pi / 64
    let lat1 := req.Lat + radiusKm / 6371 * fm.cos angle1 * 180 / fm.pi
    let lng1 := req.Lng + radiusKm / 6371 * fm.sin angle1 * 180 / fm.pi /
      fm.cos (deg2radQ fm req.Lat)
    let lat2 := req.Lat + radiusKm / 6371 * fm.cos angle2 * 180 / fm.pi
    let lng2 := req.Lng + radiusKm / 6371 * fm.sin angle2 * 180 / fm.pi /
      fm.cos (deg2radQ fm req.Lat)
    let p1 := getWebMercatorPixelQ fm lat1 lng1 req.Zoom
    let p2 := getWebMercatorPixelQ fm lat2 lng2 req.Zoom
    let c := getWebMercatorPixelQ fm req.Lat req.Lng req.Zoom
    let imageSize : Int := (2 * req.AroundTiles + 1) * 256
    let half : ℚ := ((imageSize / 2 : Int) : ℚ)
    drawLine
      { Img := im,
        X1 := goIntOfRat (p1.1 - c.1 + half), Y1 := goIntOfRat (p1.2 - c.2 + half),
        X2 := goIntOfRat (p2.1 - c.1 + half), Y2 := goIntOfRat (p2.2 - c.2 + half),
        Col := col }) img

/-- `drawLightningMarker` from part_008 lines 678-709: project the strike
and the center, translate to canvas coordinates, then run the radius-7
circle fill with the fixed cyan marker color. -/
def drawLightningMarker (fm : FloatModel) (img : RGBAImage) (lightning : lightningPoint)
    (req : CreateImageRequest) : RGBAImage :=
  let p := getWebMercatorPixelQ fm lightning.Lat lightning.Lng req.Zoom
  let c := getWebMercatorPixelQ fm req.Lat req.Lng req.Zoom
  let imageSize : Int := (2 * req.AroundTiles + 1) * 256
  let half : ℚ := ((imageSize / 2 : Int) : ℚ)
  drawCircleFill img (goIntOfRat (p.1 - c.1 + half)) (goIntOfRat (p.2 - c.2 + half))
    lightningColor

/-- The tile download-and-blend double loop of `CreateAmeshImageWithClient`
(part_008 lines 158-192): `dy` outer, `dx` inner, both over
`[-AroundTiles, AroundTiles]`; a failed base-tile download skips the whole
cell (the `continue`), a failed radar-tile download keeps the already-drawn
base tile; the radar tile is blended through the uniform alpha-128 mask. -/
def compositeTiles (client : Client) (req : CreateImageRequest)
    (hrpnsTimestamp : String) (centerTileX centerTileY : Int)
    (img : RGBAImage) : RGBAImage :=
  (rangeInt (-req.AroundTiles) req.AroundTiles).foldl (fun im dy =>
    (rangeInt (-req.AroundTiles) req.AroundTiles).foldl (fun im2 dx =>
      match downloadTileWithClient client
        (.baseTile req.Zoom (centerTileX + dx) (centerTileY + dy)) with
      | .error _ => im2
      | .ok baseTile =>
          match downloadTileWithClient client
            (.radarTile hrpnsTimestamp req.Zoom (centerTileX + dx) (centerTileY + dy)) with
          | .error _ =>
              drawTileOver im2 ((dx + req.AroundTiles) * 256) ((dy + req.AroundTiles) * 256)
                ((dx + req.AroundTiles + 1) * 256) ((dy + req.AroundTiles + 1) * 256) baseTile
          | .ok radarTile =>
              drawTileMask
                (drawTileOver im2 ((dx + req.AroundTiles) * 256) ((dy + req.AroundTiles) * 256)
                  ((dx + req.AroundTiles + 1) * 256) ((dy + req.AroundTiles + 1) * 256) baseTile)
                ((dx + req.AroundTiles) * 256) ((dy + req.AroundTiles) * 256)
                ((dx + req.AroundTiles + 1) * 256) ((dy + req.AroundTiles + 1) * 256)
                radarTile 128) im) img

/-- `CreateAmeshImageWithClient` from part_008 lines 128-215: the full
compositor.  A `none` request models the Go `nil` request (the only error
return); timestamps and lightning data degrade to defaults on failure; each
tile pair is fetched and blended, failures skipping that tile (a failed
base tile also skips its radar tile, exactly as the `continue` does); then
the five distance rings and the lightning markers are drawn. -/
def CreateAmeshImageWithClient (fm : FloatModel) (client : Client)
    (req : Option CreateImageRequest) : Except String RGBAImage :=
  match req with
  | none => .error "req cannot be nil"
  | some req =>
      let timestamps := getLatestTimestampsWithClient client
      let hrpnsTimestamp := mapGet timestamps "hrpns_nd"
      let lidenTimestamp := mapGet timestamps "liden"
      let lightningData :=
        match getLightningDataWithClient client lidenTimestamp with
        | .error _ => []
        | .ok l => l
      let c := getWebMercatorPixelQ fm req.Lat req.Lng req.Zoom
      let centerTileX := goIntOfRat (c.1 / 256)
      let centerTileY := goIntOfRat (c.2 / 256)
      let imageSize : Int := (2 * req.AroundTiles + 1) * 256
      let img0 : RGBAImage :=
        { width := imageSize, height := imageSize, pix := fun _ _ => whiteColor }
      let img1 := compositeTiles client req hrpnsTimestamp centerTileX centerTileY img0
      let img2 := ([10, 20, 30, 40, 50] : List ℚ).foldl
        (fun im d => drawDistanceCircle fm im req d grayColor) img1
      let img3 := lightningData.foldl (fun im l => drawLightningMarker fm im l req) img2
      .ok img3

/-! ## Geocoding and location resolution

`strconv.ParseFloat` and the `%.2f` formatting of `fmt.Sprintf` are
abstracted as parameters (`pf`, `fmt2`): the claims about this path are
about its branching structure and hold for every float parser and
formatter. -/

/-- `GeocodeRequest` from part_008 lines 47-50. -/
structure GeocodeRequest where
  Place : String
  APIKey : String
deriving DecidableEq, Repr

/-- `Location` from part_008 lines 53-57 (exact-valued coordinates). -/
structure Location where
  Lat : ℚ
  Lng : ℚ
  PlaceName : String
deriving DecidableEq, Repr

/-- The error kinds of the geocoding path (part_008 lines 118-123 sentinel
errors, plus the wrapped transport and `strconv.ParseFloat` failures). -/
inductive GeoError where
  | transport
  | apiError (status : Nat)
  | jsonUnmarshal
  | noResults (place : String)
  | invalidCoordinates
  | parseFloat
deriving DecidableEq, Repr

/-- Helper for `goSplitComma`, accumulating the current field in reverse. -/
def splitCommaAux : List Char → List Char → List (List Char)
  | [], acc => [acc.reverse]
  | c :: cs, acc =>
      if c = ',' then acc.reverse :: splitCommaAux cs []
      else splitCommaAux cs (c :: acc)

/-- Go `strings.Split(s, ",")`: split at every comma, keeping empty
fields. -/
def goSplitComma (s : String) : List String :=
  (splitCommaAux s.data []).map (fun l => ⟨l⟩)

/-- `GeocodeWithClient` from part_008 lines 276-343: empty place defaults
to 東京; non-200 is a geocoding-API error (body unread); a 200 body must
decode; an empty `Feature` list is not-found; the first feature's
comma-separated coordinate string must have at least two fields (`lng`
first, then `lat`), each parsed by `pf` standing for
`strconv.ParseFloat`. -/
def GeocodeWithClient (pf : String → Option ℚ) (client : Client)
    (req : GeocodeRequest) : Except GeoError Location :=
  match client (.geocode req.APIKey (if req.Place = "" then "東京" else req.Place)) with
  | .error _ => .error .transport
  | .ok resp =>
      if resp.status ≠ 200 then .error (.apiError resp.status)
      else
        match resp.body.decodeGeo with
        | none => .error .jsonUnmarshal
        | some result =>
            match result.Feature with
            | [] => .error (.noResults (if req.Place = "" then "東京" else req.Place))
            | feature :: _ =>
                match goSplitComma feature.Coordinates with
                | c0 :: c1 :: _ =>
                    match pf c0 with
                    | none => .error .parseFloat
                    | some lng =>
                        match pf c1 with
                        | none => .error .parseFloat
                        | some lat =>
                            .ok { Lat := lat, Lng := lng, PlaceName := feature.Name }
                | _ => .error .invalidCoordinates

/-- `ParseLocationWithClient` from part_008 lines 346-373 (the `nil`
request/client guards have no counterpart for total Lean values and are
elided): split the place on whitespace; exactly two tokens that both parse
as floats form a direct coordinate `Location` whose display name is
`fmt.Sprintf("%.2f,%.2f", lat, lng)` (`fmt2` standing for the `%.2f`
formatting); every other input falls through to geocoding. -/
def ParseLocationWithClient (pf : String → Option ℚ) (fmt2 : ℚ → String)
    (client : Client) (req : GeocodeRequest) : Except GeoError Location :=
  match goFields req.Place with
  | [t0, t1] =>
      match pf t0 with
      | some parsedLat =>
          match pf t1 with
          | some parsedLng =>
              .ok { Lat := parsedLat, Lng := parsedLng,
                    PlaceName := fmt2 parsedLat ++ "," ++ fmt2 parsedLng }
          | none => GeocodeWithClient pf client req
      | none => GeocodeWithClient pf client req
  | _ => GeocodeWithClient pf client req

end HatoBot

namespace HatoBot

/-! ## Bresenham loop lemmas -/

theorem wrap64_eq_self (n : Int) (h1 : -(2 ^ 63) ≤ n) (h2 : n < 2 ^ 63) :
    wrap64 n = n := by
  unfold wrap64; omega

/-- For canvas-range endpoints the wrapped `|X2 - X1|` is the exact
absolute difference. -/
theorem lineDx_char (p : drawLineParams) (hb : LineBounded p) :
    lineDx p = if p.X2 < p.X1 then p.X1 - p.X2 else p.X2 - p.X1 := by
  obtain ⟨h1, h2, h3, h4, _, _, _, _⟩ := hb
  unfold lineDx goAbs
  rw [wrap64_eq_self _ (by omega) (by omega)]
  by_cases hlt : p.X2 - p.X1 < 0
  · rw [if_pos hlt, wrap64_eq_self _ (by omega) (by omega),
      if_pos (show p.X2 < p.X1 by omega)]
    omega
  · rw [if_neg hlt, if_neg (show ¬ p.X2 < p.X1 by omega)]

theorem lineDy_char (p : drawLineParams) (hb : LineBounded p) :
    lineDy p = if p.Y2 < p.Y1 then p.Y1 - p.Y2 else p.Y2 - p.Y1 := by
  obtain ⟨_, _, _, _, h1, h2, h3, h4⟩ := hb
  unfold lineDy goAbs
  rw [wrap64_eq_self _ (by omega) (by omega)]
  by_cases hlt : p.Y2 - p.Y1 < 0
  · rw [if_pos hlt, wrap64_eq_self _ (by omega) (by omega),
      if_pos (show p.Y2 < p.Y1 by omega)]
    omega
  · rw [if_neg hlt, if_neg (show ¬ p.Y2 < p.Y1 by omega)]

theorem lineDx_facts (p : drawLineParams) (hb : LineBounded p) :
    0 ≤ lineDx p ∧ lineDx p ≤ 2 ^ 30 ∧ p.X1 + lineSx p * lineDx p = p.X2 := by
  have hc := lineDx_char p hb
  obtain ⟨h1, h2, h3, h4, _, _, _, _⟩ := hb
  unfold lineSx
  rw [hc]
  by_cases hlt : p.X2 < p.X1
  · simp only [if_pos hlt]; omega
  · simp only [if_neg hlt]; omega

theorem lineDy_facts (p : drawLineParams) (hb : LineBounded p) :
    0 ≤ lineDy p ∧ lineDy p ≤ 2 ^ 30 ∧ p.Y1 + lineSy p * lineDy p = p.Y2 := by
  have hc := lineDy_char p hb
  obtain ⟨_, _, _, _, h1, h2, h3, h4⟩ := hb
  unfold lineSy
  rw [hc]
  by_cases hlt : p.Y2 < p.Y1
  · simp only [if_pos hlt]; omega
  · simp only [if_neg hlt]; omega

/-- Stepping `lineDx p` times from `X1` in direction `lineSx p` lands on
`X2`, and does so only then (canvas-range endpoints). -/
theorem x_target_iff (p : drawLineParams) (hb : LineBounded p) (i : Int) :
    p.X1 + lineSx p * i = p.X2 ↔ i = lineDx p := by
  have hc := lineDx_char p hb
  obtain ⟨h1, h2, h3, h4, _, _, _, _⟩ := hb
  unfold lineSx
  rw [hc]
  by_cases hlt : p.X2 < p.X1
  · simp only [if_pos hlt]; omega
  · simp only [if_neg hlt]; omega

theorem y_target_iff (p : drawLineParams) (hb : LineBounded p) (j : Int) :
    p.Y1 + lineSy p * j = p.Y2 ↔ j = lineDy p := by
  have hc := lineDy_char p hb
  obtain ⟨_, _, _, _, h1, h2, h3, h4⟩ := hb
  unfold lineSy
  rw [hc]
  by_cases hlt : p.Y2 < p.Y1
  · simp only [if_pos hlt]; omega
  · simp only [if_neg hlt]; omega

/-- Along the loop invariant, the delta-error value stays far inside the
64-bit range. -/
theorem delta_range (dx dy i j d : Int)
    (hdx0 : 0 ≤ dx) (hdxB : dx ≤ 2 ^ 30) (hdy0 : 0 ≤ dy) (hdyB : dy ≤ 2 ^ 30)
    (hi0 : 0 ≤ i) (hiB : i ≤ dx) (hj0 : 0 ≤ j) (hjB : j ≤ dy)
    (hd : d = (1 + j) * dx - (1 + i) * dy) :
    -(2 ^ 61) ≤ d ∧ d ≤ 2 ^ 61 := by
  have hub : (1 + j) * dx ≤ (1 + 2 ^ 30) * 2 ^ 30 :=
    mul_le_mul (by omega) hdxB hdx0 (by norm_num)
  have hub2 : (1 + i) * dy ≤ (1 + 2 ^ 30) * 2 ^ 30 :=
    mul_le_mul (by omega) hdyB hdy0 (by norm_num)
  have hlb : 0 ≤ (1 + j) * dx := mul_nonneg (by omega) hdx0
  have hlb2 : 0 ≤ (1 + i) * dy := mul_nonneg (by omega) hdy0
  have hnum : ((1 : Int) + 2 ^ 30) * 2 ^ 30 ≤ 2 ^ 61 := by norm_num
  constructor <;> linarith

/-- Once the x coordinate has arrived (`i = dx`) and y has not, the x-step
condition `-dy < 2*delta` of the loop is false: x never overshoots. -/
theorem no_x_overshoot (dx dy j delta : Int) (hdx : 0 ≤ dx) (hj0 : 0 ≤ j)
    (hj : j + 1 ≤ dy) (hdelta : delta = (1 + j) * dx - (1 + dx) * dy) :
    ¬ (-dy < 2 * delta) := by
  intro h
  nlinarith [mul_le_mul_of_nonneg_right hj hdx]

/-- Once the y coordinate has arrived (`j = dy`) and x has not, the y-step
condition `2*delta < dx` of the loop is false: y never overshoots. -/
theorem no_y_overshoot (dx dy i delta : Int) (hdy : 0 ≤ dy) (hi0 : 0 ≤ i)
    (hi : i + 1 ≤ dx) (hdelta : delta = (1 + dy) * dx - (1 + i) * dy) :
    ¬ (2 * delta < dx) := by
  intro h
  nlinarith [mul_le_mul_of_nonneg_right hi hdy]

theorem lineNext_x (p : drawLineParams) (dx dy sx sy : Int) (s : LineState) :
    (lineNext p dx dy sx sy s).x =
      if wrap64 (-dy) < wrap64 (2 * s.delta) then wrap64 (s.x + sx) else s.x := by
  unfold lineNext
  by_cases hA : wrap64 (-dy) < wrap64 (2 * s.delta) <;>
    by_cases hB : wrap64 (2 * s.delta) < dx <;> simp [hA, hB]

theorem lineNext_y (p : drawLineParams) (dx dy sx sy : Int) (s : LineState) :
    (lineNext p dx dy sx sy s).y =
      if wrap64 (2 * s.delta) < dx then wrap64 (s.y + sy) else s.y := by
  unfold lineNext
  by_cases hA : wrap64 (-dy) < wrap64 (2 * s.delta) <;>
    by_cases hB : wrap64 (2 * s.delta) < dx <;> simp [hA, hB]

theorem lineNext_delta (p : drawLineParams) (dx dy sx sy : Int) (s : LineState) :
    (lineNext p dx dy sx sy s).delta =
      if wrap64 (2 * s.delta) < dx then
        wrap64 ((if wrap64 (-dy) < wrap64 (2 * s.delta) then
          wrap64 (s.delta - dy) else s.delta) + dx)
      else
        (if wrap64 (-dy) < wrap64 (2 * s.delta) then wrap64 (s.delta - dy) else s.delta) := by
  unfold lineNext
  by_cases hA : wrap64 (-dy) < wrap64 (2 * s.delta) <;>
    by_cases hB : wrap64 (2 * s.delta) < dx <;> simp [hA, hB]

theorem lineNext_img (p : drawLineParams) (dx dy sx sy : Int) (s : LineState) :
    (lineNext p dx dy sx sy s).img = setGuarded s.img s.x s.y p.Col := by
  unfold lineNext
  by_cases hA : wrap64 (-dy) < wrap64 (2 * s.delta) <;>
    by_cases hB : wrap64 (2 * s.delta) < dx <;> simp [hA, hB]

/-- Main loop invariant: from a state that is `i` x-steps and `j` y-steps
along the line with the delta-error value `(1+j)*dx - (1+i)*dy`, fuel
exceeding the remaining step count makes the loop break at exactly
`(X2, Y2)`.  For canvas-range endpoints every value the loop computes is
far inside the 64-bit range, so each wrap is the identity. -/
theorem drawLineGo_reaches (p : drawLineParams) (hb : LineBounded p) (fuel : Nat) :
    ∀ (i j : Nat) (s : LineState),
      s.x = p.X1 + lineSx p * i →
      s.y = p.Y1 + lineSy p * j →
      s.delta = (1 + (j : Int)) * lineDx p - (1 + (i : Int)) * lineDy p →
      (i : Int) ≤ lineDx p → (j : Int) ≤ lineDy p →
      lineDx p + lineDy p < (fuel : Int) + i + j →
      ∃ t, drawLineGo p (lineDx p) (lineDy p) (lineSx p) (lineSy p) fuel s = some t ∧
        t.x = p.X2 ∧ t.y = p.Y2 := by
  obtain ⟨hdx0, hdxB, _⟩ := lineDx_facts p hb
  obtain ⟨hdy0, hdyB, _⟩ := lineDy_facts p hb
  have hbu := hb
  unfold LineBounded at hbu
  obtain ⟨hX1lo, hX1hi, hX2lo, hX2hi, hY1lo, hY1hi, hY2lo, hY2hi⟩ := hbu
  induction fuel with
  | zero =>
      intro i j s _ _ _ hi hj hf
      exfalso; omega
  | succ f ih =>
      intro i j s hx hy hd hi hj hf
      by_cases hend : s.x = p.X2 ∧ s.y = p.Y2
      · refine ⟨{ s with img := setGuarded s.img s.x s.y p.Col }, ?_, hend.1, hend.2⟩
        simp only [drawLineGo]
        rw [if_pos hend]
      · have hxt : s.x = p.X2 ↔ (i : Int) = lineDx p := by
          rw [hx]; exact x_target_iff p hb i
        have hyt : s.y = p.Y2 ↔ (j : Int) = lineDy p := by
          rw [hy]; exact y_target_iff p hb j
        have hnotboth : ¬ ((i : Int) = lineDx p ∧ (j : Int) = lineDy p) := by
          intro ⟨h1, h2⟩; exact hend ⟨hxt.2 h1, hyt.2 h2⟩
        have hstep : drawLineGo p (lineDx p) (lineDy p) (lineSx p) (lineSy p) (f + 1) s =
            drawLineGo p (lineDx p) (lineDy p) (lineSx p) (lineSy p) f
              (lineNext p (lineDx p) (lineDy p) (lineSx p) (lineSy p) s) := by
          simp [drawLineGo, hend]
        rw [hstep]
        obtain ⟨hdlo, hdhi⟩ := delta_range (lineDx p) (lineDy p) i j s.delta
          hdx0 hdxB hdy0 hdyB (by positivity) hi (by positivity) hj hd
        have hw2 : wrap64 (2 * s.delta) = 2 * s.delta :=
          wrap64_eq_self _ (by omega) (by omega)
        have hwnd : wrap64 (-(lineDy p)) = -(lineDy p) :=
          wrap64_eq_self _ (by omega) (by omega)
        have hwdmy : wrap64 (s.delta - lineDy p) = s.delta - lineDy p :=
          wrap64_eq_self _ (by omega) (by omega)
        have hwdpx : wrap64 (s.delta + lineDx p) = s.delta + lineDx p :=
          wrap64_eq_self _ (by omega) (by omega)
        have hwboth : wrap64 (s.delta - lineDy p + lineDx p) =
            s.delta - lineDy p + lineDx p :=
          wrap64_eq_self _ (by omega) (by omega)
        have hsxpm : lineSx p = -1 ∨ lineSx p = 1 := by
          unfold lineSx
          split
          · exact Or.inl rfl
          · exact Or.inr rfl
        have hsypm : lineSy p = -1 ∨ lineSy p = 1 := by
          unfold lineSy
          split
          · exact Or.inl rfl
          · exact Or.inr rfl
        have hwx : wrap64 (s.x + lineSx p) = s.x + lineSx p := by
          rw [hx]
          rcases hsxpm with h | h <;> rw [h] <;>
            exact wrap64_eq_self _ (by omega) (by omega)
        have hwy : wrap64 (s.y + lineSy p) = s.y + lineSy p := by
          rw [hy]
          rcases hsypm with h | h <;> rw [h] <;>
            exact wrap64_eq_self _ (by omega) (by omega)
        by_cases hA : -(lineDy p) < 2 * s.delta <;> by_cases hB : 2 * s.delta < lineDx p
        · -- both coordinates step
          refine ih (i + 1) (j + 1) _ ?_ ?_ ?_ ?_ ?_ ?_
          · rw [lineNext_x, hwnd, hw2, if_pos hA, hwx, hx]; push_cast; ring
          · rw [lineNext_y, hw2, if_pos hB, hwy, hy]; push_cast; ring
          · rw [lineNext_delta, hwnd, hw2, if_pos hB, if_pos hA, hwdmy, hwboth, hd]
            push_cast; ring
          · -- i + 1 <= dx: otherwise the x condition would have been false
            by_contra hgt
            have hieq : (i : Int) = lineDx p := by omega
            have hjlt : (j : Int) + 1 ≤ lineDy p := by
              rcases lt_or_eq_of_le hj with h | h
              · omega
              · exact absurd ⟨hieq, h⟩ hnotboth
            refine no_x_overshoot (lineDx p) (lineDy p) j s.delta
              hdx0 (by positivity) hjlt ?_ hA
            rw [hd, hieq]
          · by_contra hgt
            have hjeq : (j : Int) = lineDy p := by omega
            have hilt : (i : Int) + 1 ≤ lineDx p := by
              rcases lt_or_eq_of_le hi with h | h
              · omega
              · exact absurd ⟨h, hjeq⟩ hnotboth
            refine no_y_overshoot (lineDx p) (lineDy p) i s.delta
              hdy0 (by positivity) hilt ?_ hB
            rw [hd, hjeq]
          · omega
        · -- only x steps
          refine ih (i + 1) j _ ?_ ?_ ?_ ?_ hj ?_
          · rw [lineNext_x, hwnd, hw2, if_pos hA, hwx, hx]; push_cast; ring
          · rw [lineNext_y, hw2, if_neg hB, hy]
          · rw [lineNext_delta, hwnd, hw2, if_neg hB, if_pos hA, hwdmy, hd]
            push_cast; ring
          · by_contra hgt
            have hieq : (i : Int) = lineDx p := by omega
            have hjlt : (j : Int) + 1 ≤ lineDy p := by
              rcases lt_or_eq_of_le hj with h | h
              · omega
              · exact absurd ⟨hieq, h⟩ hnotboth
            refine no_x_overshoot (lineDx p) (lineDy p) j s.delta
              hdx0 (by positivity) hjlt ?_ hA
            rw [hd, hieq]
          · omega
        · -- only y steps
          refine ih i (j + 1) _ ?_ ?_ ?_ hi ?_ ?_
          · rw [lineNext_x, hwnd, hw2, if_neg hA, hx]
          · rw [lineNext_y, hw2, if_pos hB, hwy, hy]; push_cast; ring
          · rw [lineNext_delta, hwnd, hw2, if_pos hB, if_neg hA, hwdpx, hd]
            push_cast; ring
          · by_contra hgt
            have hjeq : (j : Int) = lineDy p := by omega
            have hilt : (i : Int) + 1 ≤ lineDx p := by
              rcases lt_or_eq_of_le hi with h | h
              · omega
              · exact absurd ⟨h, hjeq⟩ hnotboth
            refine no_y_overshoot (lineDx p) (lineDy p) i s.delta
              hdy0 (by positivity) hilt ?_ hB
            rw [hd, hjeq]
          · omega
        · -- neither condition fires: impossible outside the break state
          exfalso
          have h1 : lineDx p ≤ 2 * s.delta := by omega
          have h2 : 2 * s.delta ≤ -(lineDy p) := by omega
          have hdxz : lineDx p = 0 := by omega
          have hdyz : lineDy p = 0 := by omega
          exact hnotboth ⟨by omega, by omega⟩

/-! ## Rasterizer write-conservativity lemmas -/

/-- All pixel changes relative to `img0` are bounds-respecting writes of the
single color `c`. -/
def Conserv (img0 : RGBAImage) (c : Color) (img : RGBAImage) : Prop :=
  img.width = img0.width ∧ img.height = img0.height ∧
  ∀ a b : Int,
    (¬ img0.inCanvas a b → img.pix a b = img0.pix a b) ∧
    (img.pix a b = c ∨ img.pix a b = img0.pix a b)

theorem conserv_refl (img0 : RGBAImage) (c : Color) : Conserv img0 c img0 :=
  ⟨rfl, rfl, fun _ _ => ⟨fun _ => rfl, Or.inr rfl⟩⟩

theorem conserv_setGuarded (img0 : RGBAImage) (c : Color) (img : RGBAImage)
    (h : Conserv img0 c img) (x y : Int) : Conserv img0 c (setGuarded img x y c) := by
  obtain ⟨hw, hh, hp⟩ := h
  unfold setGuarded
  split
  · rename_i hin
    refine ⟨hw, hh, fun a b => ⟨fun hout => ?_, ?_⟩⟩
    · have hne : ¬ (a = x ∧ b = y) := by
        rintro ⟨rfl, rfl⟩
        exact hout (by unfold RGBAImage.inCanvas at *; omega)
      simp only [RGBAImage.setPix, if_neg hne]
      exact (hp a b).1 hout
    · by_cases he : a = x ∧ b = y
      · simp only [RGBAImage.setPix, if_pos he]; tauto
      · simp only [RGBAImage.setPix, if_neg he]; exact (hp a b).2
  · exact ⟨hw, hh, hp⟩

theorem drawLineGo_conserv (p : drawLineParams) (fuel : Nat) :
    ∀ (s t : LineState), Conserv p.Img p.Col s.img →
      drawLineGo p (lineDx p) (lineDy p) (lineSx p) (lineSy p) fuel s = some t →
      Conserv p.Img p.Col t.img := by
  induction fuel with
  | zero => intro s t _ h; simp [drawLineGo] at h
  | succ f ih =>
      intro s t hc h
      simp only [drawLineGo] at h
      split at h
      · cases h
        exact conserv_setGuarded _ _ _ hc s.x s.y
      · refine ih _ t ?_ h
        rw [lineNext_img]
        exact conserv_setGuarded _ _ _ hc s.x s.y

theorem drawLine_conserv (p : drawLineParams) : Conserv p.Img p.Col (drawLine p) := by
  unfold drawLine
  split
  · rename_i s hs
    exact drawLineGo_conserv p (lineFuel p) (lineInit p) s (conserv_refl _ _) hs
  · exact conserv_refl _ _

/-! ## Circle fill lemmas -/

theorem setGuarded_width (img : RGBAImage) (x y : Int) (c : Color) :
    (setGuarded img x y c).width = img.width := by
  unfold setGuarded RGBAImage.setPix; split <;> rfl

theorem setGuarded_height (img : RGBAImage) (x y : Int) (c : Color) :
    (setGuarded img x y c).height = img.height := by
  unfold setGuarded RGBAImage.setPix; split <;> rfl

theorem setGuarded_pix (img : RGBAImage) (x y : Int) (c : Color) (a b : Int) :
    (setGuarded img x y c).pix a b =
      if a = x ∧ b = y ∧ img.inCanvas x y then c else img.pix a b := by
  unfold setGuarded RGBAImage.setPix
  by_cases hin : img.inCanvas x y
  · rw [if_pos hin]
    by_cases he : a = x ∧ b = y
    · simp only [if_pos he]
      rw [if_pos ⟨he.1, he.2, hin⟩]
    · simp only [if_neg he]
      rw [if_neg (by tauto)]
  · rw [if_neg hin, if_neg (by tauto)]

theorem writePoints_pix (c : Color) :
    ∀ (pts : List (Int × Int)) (img : RGBAImage) (a b : Int),
      (writePoints img pts c).width = img.width ∧
      (writePoints img pts c).height = img.height ∧
      (writePoints img pts c).pix a b =
        (if (a, b) ∈ pts ∧ img.inCanvas a b then c else img.pix a b) := by
  intro pts
  induction pts with
  | nil => intro img a b; simp [writePoints]
  | cons q rest ih =>
      intro img a b
      have hstep : writePoints img (q :: rest) c =
          writePoints (setGuarded img q.1 q.2 c) rest c := rfl
      obtain ⟨hw, hh, hp⟩ := ih (setGuarded img q.1 q.2 c) a b
      rw [hstep]
      refine ⟨by rw [hw, setGuarded_width], by rw [hh, setGuarded_height], ?_⟩
      rw [hp, setGuarded_pix]
      have hcan : (setGuarded img q.1 q.2 c).inCanvas a b ↔ img.inCanvas a b := by
        unfold RGBAImage.inCanvas
        rw [setGuarded_width, setGuarded_height]
      by_cases hrest : (a, b) ∈ rest
      · by_cases hin : img.inCanvas a b
        · rw [if_pos ⟨hrest, hcan.2 hin⟩,
            if_pos ⟨List.mem_cons.2 (Or.inr hrest), hin⟩]
        · rw [if_neg (fun h => hin (hcan.1 h.2))]
          rw [if_neg (fun h => hin (by rw [h.1, h.2.1]; exact h.2.2))]
          rw [if_neg (fun h => hin h.2)]
      · rw [if_neg (fun h => hrest h.1)]
        by_cases hq : a = q.1 ∧ b = q.2
        · obtain ⟨rfl, rfl⟩ := hq
          by_cases hin : img.inCanvas q.1 q.2
          · rw [if_pos ⟨rfl, rfl, hin⟩, if_pos ⟨List.mem_cons.2 (Or.inl rfl), hin⟩]
          · rw [if_neg (fun h => hin h.2.2), if_neg (fun h => hin h.2)]
        · rw [if_neg (fun h => hq ⟨h.1, h.2.1⟩)]
          have hnq : ¬ ((a, b) = q) := fun h => hq ⟨congrArg Prod.fst h, congrArg Prod.snd h⟩
          rw [if_neg (fun h => (List.mem_cons.1 h.1).elim hnq hrest)]

/-- Constructor form of membership in the circle offset list. -/
theorem mem_circleOffsets_aux (radius a b : Nat) (ha : a < 2 * radius + 1)
    (hb : b < 2 * radius + 1)
    (hcond : ¬ ((radius : Int) * radius <
      ((b : Int) - radius) * ((b : Int) - radius) +
        ((a : Int) - radius) * ((a : Int) - radius))) :
    (((b : Int) - radius), ((a : Int) - radius)) ∈ circleOffsets radius := by
  unfold circleOffsets
  refine List.mem_flatMap.2 ⟨a, List.mem_range.2 ha, ?_⟩
  refine List.mem_filterMap.2 ⟨b, List.mem_range.2 hb, ?_⟩
  rw [if_neg hcond]

/-- Membership in the circle offset list is exactly the disc inequality. -/
theorem mem_circleOffsets (radius : Nat) (u v : Int) :
    (u, v) ∈ circleOffsets radius ↔ u * u + v * v ≤ (radius : Int) * radius := by
  constructor
  · intro hmem
    unfold circleOffsets at hmem
    obtain ⟨a, _, hmem2⟩ := List.mem_flatMap.1 hmem
    obtain ⟨b, _, heq⟩ := List.mem_filterMap.1 hmem2
    split at heq
    · cases heq
    · rename_i hle
      simp only [Option.some.injEq, Prod.mk.injEq] at heq
      obtain ⟨h1, h2⟩ := heq
      rw [← h1, ← h2]
      exact le_of_not_lt hle
  · intro hle
    have hu : -(radius : Int) ≤ u ∧ u ≤ (radius : Int) := by
      constructor <;> nlinarith [sq_nonneg (u + radius), sq_nonneg (u - radius),
        sq_nonneg u, sq_nonneg v]
    have hv : -(radius : Int) ≤ v ∧ v ≤ (radius : Int) := by
      constructor <;> nlinarith [sq_nonneg (v + radius), sq_nonneg (v - radius),
        sq_nonneg u, sq_nonneg v]
    have hb0 : (((u + (radius : Int)).toNat : Nat) : Int) = u + radius :=
      Int.toNat_of_nonneg (by omega)
    have ha0 : (((v + (radius : Int)).toNat : Nat) : Int) = v + radius :=
      Int.toNat_of_nonneg (by omega)
    have hcond : ¬ ((radius : Int) * radius <
        ((((u + (radius : Int)).toNat : Nat) : Int) - radius) *
            ((((u + (radius : Int)).toNat : Nat) : Int) - radius) +
          ((((v + (radius : Int)).toNat : Nat) : Int) - radius) *
            ((((v + (radius : Int)).toNat : Nat) : Int) - radius)) := by
      rw [hb0, ha0, show u + (radius : Int) - radius = u from by ring,
        show v + (radius : Int) - radius = v from by ring]
      exact not_lt.2 hle
    have hmem := mem_circleOffsets_aux radius ((v + (radius : Int)).toNat)
      ((u + (radius : Int)).toNat) (by omega) (by omega) hcond
    rw [hb0, ha0, show u + (radius : Int) - radius = u from by ring,
      show v + (radius : Int) - radius = v from by ring] at hmem
    exact hmem

/-! ## Compositor size lemmas -/

theorem foldl_dims {α : Type} (f : RGBAImage → α → RGBAImage)
    (h : ∀ im x, (f im x).width = im.width ∧ (f im x).height = im.height)
    (l : List α) :
    ∀ im : RGBAImage,
      (l.foldl f im).width = im.width ∧ (l.foldl f im).height = im.height := by
  induction l with
  | nil => intro im; exact ⟨rfl, rfl⟩
  | cons x rest ih =>
      intro im
      rw [List.foldl_cons]
      obtain ⟨hw, hh⟩ := ih (f im x)
      obtain ⟨hw2, hh2⟩ := h im x
      exact ⟨hw.trans hw2, hh.trans hh2⟩

theorem drawLine_dims (p : drawLineParams) :
    (drawLine p).width = p.Img.width ∧ (drawLine p).height = p.Img.height := by
  obtain ⟨hw, hh, _⟩ := drawLine_conserv p
  exact ⟨hw, hh⟩

theorem drawCircleFill_dims (img : RGBAImage) (cx cy : Int) (c : Color) :
    (drawCircleFill img cx cy c).width = img.width ∧
    (drawCircleFill img cx cy c).height = img.height := by
  obtain ⟨hw, hh, _⟩ := writePoints_pix c
    ((circleOffsets 7).map (fun d => (cx + d.1, cy + d.2))) img 0 0
  exact ⟨hw, hh⟩

theorem drawDistanceCircle_dims (fm : FloatModel) (img : RGBAImage)
    (req : CreateImageRequest) (radiusKm : ℚ) (col : Color) :
    (drawDistanceCircle fm img req radiusKm col).width = img.width ∧
    (drawDistanceCircle fm img req radiusKm col).height = img.height := by
  unfold drawDistanceCircle
  exact foldl_dims _ (fun im i => drawLine_dims _) _ img

theorem drawLightningMarker_dims (fm : FloatModel) (img : RGBAImage)
    (lightning : lightningPoint) (req : CreateImageRequest) :
    (drawLightningMarker fm img lightning req).width = img.width ∧
    (drawLightningMarker fm img lightning req).height = img.height := by
  unfold drawLightningMarker
  exact drawCircleFill_dims _ _ _ _

theorem compositeTiles_dims (client : Client) (req : CreateImageRequest)
    (ts : String) (ctx cty : Int) (img : RGBAImage) :
    (compositeTiles client req ts ctx cty img).width = img.width ∧
    (compositeTiles client req ts ctx cty img).height = img.height := by
  unfold compositeTiles
  refine foldl_dims _ (fun im dy => ?_) _ img
  refine foldl_dims _ (fun im2 dx => ?_) _ im
  cases downloadTileWithClient client (.baseTile req.Zoom (ctx + dx) (cty + dy)) with
  | error e => exact ⟨rfl, rfl⟩
  | ok baseTile =>
      cases downloadTileWithClient client (.radarTile ts req.Zoom (ctx + dx) (cty + dy)) with
      | error e => exact ⟨rfl, rfl⟩
      | ok radarTile => exact ⟨rfl, rfl⟩

/-- Concrete 2x2 white canvas for witnesses. -/
def demoImage : RGBAImage :=
  { width := 2, height := 2, pix := fun _ _ => { r := 255, g := 255, b := 255, a := 255 } }

/-- Concrete line-drawing request for the C8 and C9 witnesses. -/
def demoLineParams : drawLineParams :=
  { Img := demoImage, X1 := 0, Y1 := 0, X2 := 5, Y2 := 3,
    Col := { r := 100, g := 100, b := 100, a := 255 } }

/-- The endpoint pair `(0, 0)` to `(-2^63, 0)` — both endpoints are
representable Go `int` values — on which the source loop never
terminates. -/
def demoWrapParams : drawLineParams :=
  { Img := demoImage, X1 := 0, Y1 := 0, X2 := -(2 ^ 63), Y2 := 0, Col := grayColor }

theorem demoWrap_dx : lineDx demoWrapParams = -(2 ^ 63) := by decide

theorem demoWrap_dy : lineDy demoWrapParams = 0 := by decide

/-- At the stuck state the step function only re-writes pixel `(0, 0)`:
`d2 = 2 * (-2^63)` wraps to `0`, both guards `-dy < d2` (`0 < 0`) and
`d2 < dx` (`0 < -2^63`) are false, so `x`, `y` and `delta` never change. -/
theorem demoWrap_lineNext (img : RGBAImage) :
    lineNext demoWrapParams (-(2 ^ 63)) 0 (lineSx demoWrapParams) (lineSy demoWrapParams)
      { x := 0, y := 0, delta := -(2 ^ 63), img := img } =
      { x := 0, y := 0, delta := -(2 ^ 63),
        img := setGuarded img 0 0 demoWrapParams.Col } := by
  simp only [lineNext]
  rw [if_neg (show ¬ wrap64 (-(0 : Int)) < wrap64 (2 * -(2 ^ 63)) from by decide),
    if_neg (show ¬ wrap64 (2 * -(2 ^ 63)) < -(2 ^ 63) from by decide)]

theorem demoWrap_stuck :
    ∀ (fuel : Nat) (img : RGBAImage),
      drawLineGo demoWrapParams (-(2 ^ 63)) 0 (lineSx demoWrapParams)
        (lineSy demoWrapParams) fuel
        { x := 0, y := 0, delta := -(2 ^ 63), img := img } = none := by
  intro fuel
  induction fuel with
  | zero => intro img; rfl
  | succ f ih =>
      intro img
      simp only [drawLineGo]
      rw [if_neg (show ¬ ((0 : Int) = demoWrapParams.X2 ∧ (0 : Int) = demoWrapParams.Y2)
        from by decide)]
      rw [demoWrap_lineNext]
      exact ih _

/-- C9 counterexample: at the representable Go-`int` endpoint pair
`(0, 0)` to `(-2^63, 0)`, `abs` wraps (`dx = -2^63` is negative),
`2 * delta` wraps to `0`, both step guards are permanently false and the
stepped point never reaches `(X2, Y2)` — the source loop runs forever, so
the claim's "for every pair of integer endpoints" fails. -/
theorem drawLine_wrap_nontermination :
    lineDx demoWrapParams = -(2 ^ 63) ∧
    LineLoopDiverges demoWrapParams ∧
    drawLine demoWrapParams = demoWrapParams.Img := by
  have hinit : lineInit demoWrapParams =
      { x := 0, y := 0, delta := -(2 ^ 63), img := demoImage } := by
    unfold lineInit
    rw [demoWrap_dx, demoWrap_dy]
    rw [show wrap64 (-(2 ^ 63) - 0) = -(2 ^ 63) from by decide]
    rfl
  have hdiv : LineLoopDiverges demoWrapParams := by
    intro fuel
    rw [hinit, demoWrap_dx, demoWrap_dy]
    exact demoWrap_stuck fuel demoImage
  refine ⟨demoWrap_dx, hdiv, ?_⟩
  unfold drawLine
  rw [hdiv (lineFuel demoWrapParams)]

/-- C9 amended: for every pair of integer endpoints whose four coordinates
lie within `[-2^29, 2^29]` — so that the 64-bit delta-error arithmetic
never wraps; every coordinate the compositor draws at is far smaller — the
Bresenham loop terminates: within the `dx + dy + 1` fuel bound it hits the
`break`, returning a final state whose stepped point is exactly
`(X2, Y2)`.  For unrestricted endpoints this fails: with Go's wrapping
`int`, `abs(-2^63)` is negative and the loop at `(0,0)`-`(-2^63,0)` never
terminates (`drawLine_wrap_nontermination`). -/
theorem drawLine_bresenham_terminates (p : drawLineParams) (hb : LineBounded p) :
    ∃ t, drawLineGo p (lineDx p) (lineDy p) (lineSx p) (lineSy p) (lineFuel p)
        (lineInit p) = some t ∧ t.x = p.X2 ∧ t.y = p.Y2 := by
  obtain ⟨hdx0, hdxB, _⟩ := lineDx_facts p hb
  obtain ⟨hdy0, hdyB, _⟩ := lineDy_facts p hb
  apply drawLineGo_reaches p hb (lineFuel p) 0 0 (lineInit p)
  · simp [lineInit]
  · simp [lineInit]
  · show (lineInit p).delta = _
    unfold lineInit
    simp only
    rw [wrap64_eq_self _ (by omega) (by omega)]
    push_cast
    ring
  · simpa using hdx0
  · simpa using hdy0
  · unfold lineFuel
    push_cast
    omega

/-- Witness for C9's amended statement: the loop for the concrete segment
`(0,0)-(5,3)` breaks at `(5, 3)`. -/
theorem drawLine_bresenham_terminates_witness :
    ∃ t, drawLineGo demoLineParams (lineDx demoLineParams) (lineDy demoLineParams)
        (lineSx demoLineParams) (lineSy demoLineParams) (lineFuel demoLineParams)
        (lineInit demoLineParams) = some t ∧
      t.x = demoLineParams.X2 ∧ t.y = demoLineParams.Y2 :=
  drawLine_bresenham_terminates demoLineParams (by decide)

/-- C8: the rasterizers are total and bounds-safe on every canvas and every
(possibly out-of-canvas) coordinates: `drawLine` never changes the canvas
dimensions, leaves every out-of-canvas pixel untouched and writes only its
given color to in-canvas pixels; the filled-circle marker drawer writes the
given color to exactly the in-canvas pixels at offsets `(dx, dy)` with
`dx² + dy² ≤ 7²` from the center and leaves every other pixel — in
particular every out-of-canvas coordinate — untouched. -/
theorem rasterizer_bounds_safety :
    (∀ (p : drawLineParams) (a b : Int),
      (drawLine p).width = p.Img.width ∧ (drawLine p).height = p.Img.height ∧
      (¬ p.Img.inCanvas a b → (drawLine p).pix a b = p.Img.pix a b) ∧
      ((drawLine p).pix a b = p.Col ∨ (drawLine p).pix a b = p.Img.pix a b)) ∧
    (∀ (img : RGBAImage) (cx cy : Int) (c : Color) (a b : Int),
      (drawCircleFill img cx cy c).width = img.width ∧
      (drawCircleFill img cx cy c).height = img.height ∧
      (drawCircleFill img cx cy c).pix a b =
        if (a - cx) * (a - cx) + (b - cy) * (b - cy) ≤ 49 ∧ img.inCanvas a b then c
        else img.pix a b) := by
  constructor
  · intro p a b
    obtain ⟨hw, hh, hp⟩ := drawLine_conserv p
    exact ⟨hw, hh, (hp a b).1, (hp a b).2⟩
  · intro img cx cy c a b
    obtain ⟨hw, hh, hp⟩ := writePoints_pix c
      ((circleOffsets 7).map (fun d => (cx + d.1, cy + d.2))) img a b
    refine ⟨hw, hh, ?_⟩
    have hstep : drawCircleFill img cx cy c =
        writePoints img ((circleOffsets 7).map (fun d => (cx + d.1, cy + d.2))) c := rfl
    rw [hstep, hp]
    have hmem : (a, b) ∈ (circleOffsets 7).map (fun d => (cx + d.1, cy + d.2)) ↔
        (a - cx) * (a - cx) + (b - cy) * (b - cy) ≤ 49 := by
      rw [List.mem_map]
      constructor
      · rintro ⟨d, hd, heq⟩
        have h1 : cx + d.1 = a := congrArg Prod.fst heq
        have h2 : cy + d.2 = b := congrArg Prod.snd heq
        have hd2 : d = (a - cx, b - cy) := by
          cases d
          simp only [Prod.mk.injEq]
          constructor <;> simp at h1 h2 <;> omega
        rw [hd2] at hd
        have := (mem_circleOffsets 7 (a - cx) (b - cy)).1 hd
        omega
      · intro hle
        refine ⟨(a - cx, b - cy), (mem_circleOffsets 7 (a - cx) (b - cy)).2 (by omega), ?_⟩
        simp only [Prod.mk.injEq]
        constructor <;> ring
    by_cases hc : (a - cx) * (a - cx) + (b - cy) * (b - cy) ≤ 49 ∧ img.inCanvas a b
    · rw [if_pos ⟨hmem.2 hc.1, hc.2⟩, if_pos hc]
    · rw [if_neg (fun h => hc ⟨hmem.1 h.1, h.2⟩), if_neg hc]

/-- Witness for C8 at a concrete out-of-canvas coordinate. -/
theorem rasterizer_bounds_safety_witness :
    (drawLine demoLineParams).pix 9 9 = demoLineParams.Img.pix 9 9 ∧
    (drawCircleFill demoImage 0 0 { r := 0, g := 255, b := 255, a := 255 }).pix 1 1 =
      { r := 0, g := 255, b := 255, a := 255 } := by
  constructor
  · exact (rasterizer_bounds_safety.1 demoLineParams 9 9).2.2.1 (by decide)
  · rw [(rasterizer_bounds_safety.2 demoImage 0 0 _ 1 1).2.2,
      if_pos (by constructor <;> decide)]

/-- C1: for every non-nil render request with `AroundTiles ≥ 0` and every
behaviour of the injected HTTP client (transport errors, non-200 statuses
and malformed bodies included, on every endpoint), the compositor returns
an image with no error, and its width and height both equal
`(2*AroundTiles+1)*256`: upstream data-source failures never fail the
render.  Proved for every interpretation `fm` of the float64 transcendental
functions. -/
theorem createAmeshImage_total_size (fm : FloatModel) (client : Client)
    (req : CreateImageRequest) (h : 0 ≤ req.AroundTiles) :
    ∃ img, CreateAmeshImageWithClient fm client (some req) = .ok img ∧
      img.width = (2 * req.AroundTiles + 1) * 256 ∧
      img.height = (2 * req.AroundTiles + 1) * 256 := by
  simp only [CreateAmeshImageWithClient]
  refine ⟨_, rfl, ?_, ?_⟩
  · rw [(foldl_dims _ (fun im l => drawLightningMarker_dims fm im l req) _ _).1,
      (foldl_dims _ (fun im d => drawDistanceCircle_dims fm im req d grayColor) _ _).1,
      (compositeTiles_dims _ _ _ _ _ _).1]
  · rw [(foldl_dims _ (fun im l => drawLightningMarker_dims fm im l req) _ _).2,
      (foldl_dims _ (fun im d => drawDistanceCircle_dims fm im req d grayColor) _ _).2,
      (compositeTiles_dims _ _ _ _ _ _).2]

/-- A trivial interpretation of the transcendental functions, for
witnesses. -/
def zeroFloatModel : FloatModel :=
  { log := fun _ => 0, tan := fun _ => 0, cos := fun _ => 0, sin := fun _ => 0, pi := 0 }

/-- A client on which every request fails at the transport level, for
witnesses. -/
def failingClient : Client := fun _ => .error ()

/-- Witness for C1: the all-failing client at `AroundTiles = 1` still
renders a 768x768 image. -/
theorem createAmeshImage_total_size_witness :
    ∃ img, CreateAmeshImageWithClient zeroFloatModel failingClient
        (some { Lat := 35, Lng := 139, Zoom := 10, AroundTiles := 1 }) = .ok img ∧
      img.width = 768 ∧ img.height = 768 :=
  createAmeshImage_total_size zeroFloatModel failingClient
    { Lat := 35, Lng := 139, Zoom := 10, AroundTiles := 1 } (by decide)

/-- C2: for every lat, lng and integer zoom in [0, 30], the projector
returns exactly the float64 Web-Mercator formula of the spec
(`x = 256·2^zoom·(lng+180)/360`,
`y = 256·2^zoom·(0.5 − ln(tan(π/4 + lat·π/180/2))/(2π))`), and for every
zoom outside [0, 30] it returns `(0, 0)` instead of failing. -/
theorem getWebMercatorPixel_spec (lat lng : Float) (zoom : Int) :
    (0 ≤ zoom → zoom ≤ 30 →
      getWebMercatorPixel lat lng zoom =
        (webMercatorSpecX lng zoom, webMercatorSpecY lat zoom)) ∧
    ((zoom < 0 ∨ 30 < zoom) → getWebMercatorPixel lat lng zoom = (0, 0)) := by
  constructor
  · intro h0 h30
    unfold getWebMercatorPixel webMercatorSpecX webMercatorSpecY deg2radF
    rw [if_neg (by omega), Nat.one_shiftLeft]
  · intro h
    unfold getWebMercatorPixel
    rw [if_pos h]

/-- Witness for C2 at zoom 10 (in range) and zoom -1 (clamped). -/
theorem getWebMercatorPixel_spec_witness :
    getWebMercatorPixel 35.6895 139.6917 10 =
      (webMercatorSpecX 139.6917 10, webMercatorSpecY 35.6895 10) ∧
    getWebMercatorPixel 35.6895 139.6917 (-1) = (0, 0) :=
  ⟨(getWebMercatorPixel_spec 35.6895 139.6917 10).1 (by decide) (by decide),
   (getWebMercatorPixel_spec 35.6895 139.6917 (-1)).2 (by decide)⟩

/-- C3 counterexample: at the projector-reachable pixel pair `(300, -100)`
(negative y arises for latitudes above about 85°), the code truncates toward
zero and returns tile `(1, 0)`, while `(floor(300/256), floor(-100/256))`
is `(1, -1)`; the claim's floor semantics is refuted. -/
theorem getTileFromPixel_not_floor :
    getTileFromPixel 300 (-100) = (1, 0) ∧
    (⌊(300 : ℚ) / 256⌋, ⌊(-100 : ℚ) / 256⌋) = (1, -1) ∧
    getTileFromPixel 300 (-100) ≠ (⌊(300 : ℚ) / 256⌋, ⌊(-100 : ℚ) / 256⌋) := by
  have hf1 : ⌊(300 : ℚ) / 256⌋ = 1 := Int.floor_eq_iff.2 (by norm_num)
  have hf2 : ⌊(-100 : ℚ) / 256⌋ = -1 := Int.floor_eq_iff.2 (by norm_num)
  have hc1 : ⌈(-100 : ℚ) / 256⌉ = 0 := Int.ceil_eq_iff.2 (by norm_num)
  have hcode : getTileFromPixel 300 (-100) = (1, 0) := by
    unfold getTileFromPixel goIntOfRat
    rw [if_pos (by norm_num : (0 : ℚ) ≤ 300 / 256),
      if_neg (by norm_num : ¬ (0 : ℚ) ≤ -100 / 256), hf1, hc1]
  refine ⟨hcode, by rw [hf1, hf2], ?_⟩
  rw [hcode, hf1, hf2]
  decide

/-- C3 amended: the pixel-to-tile conversion returns
`(floor(x/256), floor(y/256))` for nonnegative pixel coordinates; for
negative coordinates Go's `int(...)` conversion truncates toward zero,
i.e. yields the ceiling instead. -/
theorem getTileFromPixel_amended (x y : ℚ) :
    (0 ≤ x → 0 ≤ y → getTileFromPixel x y = (⌊x / 256⌋, ⌊y / 256⌋)) ∧
    (x < 0 → y < 0 → getTileFromPixel x y = (⌈x / 256⌉, ⌈y / 256⌉)) := by
  constructor
  · intro hx hy
    unfold getTileFromPixel goIntOfRat
    rw [if_pos (div_nonneg hx (by norm_num)), if_pos (div_nonneg hy (by norm_num))]
  · intro hx hy
    unfold getTileFromPixel goIntOfRat
    rw [if_neg (not_le.2 (div_neg_of_neg_of_pos hx (by norm_num))),
      if_neg (not_le.2 (div_neg_of_neg_of_pos hy (by norm_num)))]

/-- Witness for C3's amended statement at concrete inputs. -/
theorem getTileFromPixel_amended_witness :
    getTileFromPixel 512 300 = (2, 1) ∧ getTileFromPixel (-100) (-300) = (0, -1) := by
  constructor
  · rw [(getTileFromPixel_amended 512 300).1 (by norm_num) (by norm_num),
      show ⌊(512 : ℚ) / 256⌋ = 2 from Int.floor_eq_iff.2 (by norm_num),
      show ⌊(300 : ℚ) / 256⌋ = 1 from Int.floor_eq_iff.2 (by norm_num)]
  · rw [(getTileFromPixel_amended (-100) (-300)).2 (by norm_num) (by norm_num),
      show ⌈(-100 : ℚ) / 256⌉ = 0 from Int.ceil_eq_iff.2 (by norm_num),
      show ⌈(-300 : ℚ) / 256⌉ = -1 from Int.ceil_eq_iff.2 (by norm_num)]

/-! ## Timestamp-discovery lemmas -/

/-- The inner loop of the latest-timestamp search over one record's
elements: it promotes the accumulator to `b` exactly when the element
occurs and the accumulator is smaller. -/
theorem elements_fold (e b : String) :
    ∀ (elems : List String) (l : String),
      elems.foldl (fun l' e' => if e' = e ∧ l' < b then b else l') l =
        if e ∈ elems then (if l < b then b else l) else l := by
  intro elems
  induction elems with
  | nil => intro l; simp
  | cons x rest ih =>
      intro l
      rw [List.foldl_cons]
      by_cases hx : x = e
      · subst hx
        by_cases hlb : l < b
        · rw [if_pos (show x = x ∧ l < b from ⟨rfl, hlb⟩), ih b,
            if_neg (lt_irrefl b), ite_self,
            if_pos (List.mem_cons_self x rest), if_pos hlb]
        · rw [if_neg (show ¬ (x = x ∧ l < b) from fun h => hlb h.2), ih l,
            if_pos (List.mem_cons_self x rest), if_neg hlb, ite_self]
      · rw [if_neg (show ¬ (x = e ∧ l < b) from fun h => hx h.1), ih l]
        by_cases hm : e ∈ rest
        · rw [if_pos hm, if_pos (List.mem_cons.2 (Or.inr hm))]
        · rw [if_neg hm, if_neg (show ¬ e ∈ x :: rest from fun h =>
            hm ((List.mem_cons.1 h).resolve_left (fun he => hx he.symm)))]

theorem latestForRecord_eq (e : String) (td : TimeJSONElement) (l : String) :
    latestForRecord e td l =
      if td.BaseTime = td.ValidTime ∧ e ∈ td.Elements then
        (if l < td.BaseTime then td.BaseTime else l)
      else l := by
  unfold latestForRecord
  by_cases hbv : td.BaseTime = td.ValidTime
  · rw [if_neg (by simpa using hbv), elements_fold]
    by_cases hm : e ∈ td.Elements
    · rw [if_pos hm,
        if_pos (show td.BaseTime = td.ValidTime ∧ e ∈ td.Elements from ⟨hbv, hm⟩)]
    · rw [if_neg hm,
        if_neg (show ¬ (td.BaseTime = td.ValidTime ∧ e ∈ td.Elements) from
          fun h => hm h.2)]
  · rw [if_pos hbv,
      if_neg (show ¬ (td.BaseTime = td.ValidTime ∧ e ∈ td.Elements) from
        fun h => hbv h.1)]

/-- The fold of the source equals the spec's maximum over the filtered
records, for every starting accumulator. -/
theorem fold_latest_eq (e : String) :
    ∀ (tds : List TimeJSONElement) (acc : String),
      tds.foldl (fun l td => latestForRecord e td l) acc =
        ((tds.filter (fun td =>
            decide (td.BaseTime = td.ValidTime ∧ e ∈ td.Elements))).map
          (fun td => td.BaseTime)).foldl max acc := by
  intro tds
  induction tds with
  | nil => intro acc; rfl
  | cons td rest ih =>
      intro acc
      rw [List.foldl_cons, latestForRecord_eq]
      by_cases hc : td.BaseTime = td.ValidTime ∧ e ∈ td.Elements
      · rw [if_pos hc, List.filter_cons_of_pos (by simpa using hc),
          List.map_cons, List.foldl_cons, ih]
        congr 1
        rcases lt_or_le acc td.BaseTime with hlt | hle
        · rw [if_pos hlt, max_eq_right hlt.le]
        · rw [if_neg (not_lt.2 hle), max_eq_left hle]
      · rw [if_neg hc, List.filter_cons_of_neg (by simpa using hc)]
        exact ih acc

theorem latestTimestampFor_eq_spec (e : String) (tds : List TimeJSONElement) :
    latestTimestampFor e tds = specLatestTimestamp e tds :=
  fold_latest_eq e tds ""

/-- Go map lookup on the association list built by mapping a key list: when
the key occurs, the stored value is returned. -/
theorem mapGet_map_self (f : String → String) :
    ∀ (xs : List String) (e : String), e ∈ xs →
      mapGet (xs.map (fun x => (x, f x))) e = f e := by
  intro xs
  induction xs with
  | nil => intro e he; cases he
  | cons x rest ih =>
      intro e he
      by_cases hx : x = e
      · subst hx
        unfold mapGet
        rw [List.map_cons, List.find?_cons_of_pos _ (by simp)]
      · have hmem : e ∈ rest := by
          rcases List.mem_cons.1 he with h | h
          · exact absurd h.symm hx
          · exact h
        have hstep : mapGet ((x :: rest).map (fun x => (x, f x))) e =
            mapGet (rest.map (fun x => (x, f x))) e := by
          unfold mapGet
          rw [List.map_cons, List.find?_cons_of_neg _ (by simp [hx])]
        rw [hstep]
        exact ih e hmem

/-- If all three index endpoints fail, no record is collected. -/
theorem collectTimeData_nil (client : Client)
    (hfail : ∀ u ∈ timeIndexURLs, (fetchTimeDataFromURLWithClient client u).isOk = false) :
    collectTimeData client = [] := by
  have h1 := hfail (.targetTimes 1) (by simp [timeIndexURLs])
  have h2 := hfail (.targetTimes 2) (by simp [timeIndexURLs])
  have h3 := hfail (.targetTimes 3) (by simp [timeIndexURLs])
  unfold collectTimeData timeIndexURLs
  simp only [List.foldl_cons, List.foldl_nil]
  cases hr1 : fetchTimeDataFromURLWithClient client (.targetTimes 1) with
  | ok td => rw [hr1] at h1; simp [Except.isOk, Except.toBool] at h1
  | error e1 =>
      cases hr2 : fetchTimeDataFromURLWithClient client (.targetTimes 2) with
      | ok td => rw [hr2] at h2; simp [Except.isOk, Except.toBool] at h2
      | error e2 =>
          cases hr3 : fetchTimeDataFromURLWithClient client (.targetTimes 3) with
          | ok td => rw [hr3] at h3; simp [Except.isOk, Except.toBool] at h3
          | error e3 => rfl

/-- C4: for the records collected from the successfully fetched index
endpoints (failed or unparsable endpoints skipped), the timestamp map sends
every element name occurring in any record to the lexicographically
greatest `BaseTime` among records with `BaseTime = ValidTime` whose
elements contain it; and if all three endpoints fail, looking up any
element yields the empty string. -/
theorem getLatestTimestamps_spec (client : Client) (e : String) :
    (e ∈ (collectTimeData client).flatMap (fun td => td.Elements) →
      mapGet (getLatestTimestampsWithClient client) e =
        specLatestTimestamp e (collectTimeData client)) ∧
    ((∀ u ∈ timeIndexURLs, (fetchTimeDataFromURLWithClient client u).isOk = false) →
      mapGet (getLatestTimestampsWithClient client) e = "") := by
  constructor
  · intro he
    unfold getLatestTimestampsWithClient
    rw [mapGet_map_self _ _ e (List.mem_dedup.2 he), latestTimestampFor_eq_spec]
  · intro hfail
    unfold getLatestTimestampsWithClient
    rw [collectTimeData_nil client hfail]
    rfl

/-- A client whose index endpoints return two records (one with
`BaseTime = ValidTime`, one without) and everything else fails. -/
def demoTimeClient : Client := fun u =>
  match u with
  | .targetTimes _ => .ok
      { status := 200,
        body := .timeData
          [{ BaseTime := "20240101000000", ValidTime := "20240101000000",
             Elements := ["hrpns_nd", "liden"] },
           { BaseTime := "20240101001000", ValidTime := "20240101000500",
             Elements := ["hrpns_nd", "liden"] }] }
  | _ => .error ()

/-- Witness for C4: lookup on a concrete merged index, and lookup under
total endpoint failure. -/
theorem getLatestTimestamps_spec_witness :
    mapGet (getLatestTimestampsWithClient demoTimeClient) "hrpns_nd" =
      specLatestTimestamp "hrpns_nd" (collectTimeData demoTimeClient) ∧
    mapGet (getLatestTimestampsWithClient failingClient) "liden" = "" :=
  ⟨(getLatestTimestamps_spec demoTimeClient "hrpns_nd").1 (by decide),
   (getLatestTimestamps_spec failingClient "liden").2 (by decide)⟩

/-- C10: the timestamp map has a key for every element occurring in any
collected record, even when no record with that element has
`BaseTime = ValidTime`; in that case the element is mapped to the empty
string rather than omitted. -/
theorem getLatestTimestamps_keys (client : Client) (e : String)
    (he : e ∈ (collectTimeData client).flatMap (fun td => td.Elements)) :
    (e, latestTimestampFor e (collectTimeData client)) ∈
        getLatestTimestampsWithClient client ∧
    ((∀ td ∈ collectTimeData client, td.BaseTime = td.ValidTime → e ∉ td.Elements) →
      mapGet (getLatestTimestampsWithClient client) e = "") := by
  constructor
  · unfold getLatestTimestampsWithClient
    exact List.mem_map.2 ⟨e, List.mem_dedup.2 he, rfl⟩
  · intro hno
    unfold getLatestTimestampsWithClient
    rw [mapGet_map_self _ _ e (List.mem_dedup.2 he), latestTimestampFor_eq_spec]
    unfold specLatestTimestamp
    have hnil : (collectTimeData client).filter (fun td =>
        decide (td.BaseTime = td.ValidTime ∧ e ∈ td.Elements)) = [] := by
      rw [List.filter_eq_nil_iff]
      intro td htd
      simp only [decide_eq_true_eq]
      rintro ⟨hbv, hmem⟩
      exact hno td htd hbv hmem
    rw [hnil]
    rfl

/-- A client whose index endpoints mention "liden" only in a record with
`BaseTime ≠ ValidTime`. -/
def demoTimeClient2 : Client := fun u =>
  match u with
  | .targetTimes _ => .ok
      { status := 200,
        body := .timeData
          [{ BaseTime := "20240101000000", ValidTime := "20240101000000",
             Elements := ["hrpns_nd"] },
           { BaseTime := "20240101001000", ValidTime := "20240101000500",
             Elements := ["liden"] }] }
  | _ => .error ()

/-- Witness for C10: "liden" occurs only in a record with
`BaseTime ≠ ValidTime`, yet it gets a key, mapped to the empty string. -/
theorem getLatestTimestamps_keys_witness :
    ("liden", latestTimestampFor "liden" (collectTimeData demoTimeClient2)) ∈
        getLatestTimestampsWithClient demoTimeClient2 ∧
    mapGet (getLatestTimestampsWithClient demoTimeClient2) "liden" = "" := by
  have h := getLatestTimestamps_keys demoTimeClient2 "liden" (by decide)
  exact ⟨h.1, h.2 (by decide)⟩

/-- C6: a place string splitting on whitespace into exactly two tokens that
both parse as floats resolves directly — latitude from the first token,
longitude from the second, display name "%.2f,%.2f" — independently of the
client, so no geocoding call is made; every other input (wrong token count,
or either token failing to parse) delegates to the geocoding path instead
of erroring directly.  Holds for every float parser `pf` and formatter
`fmt2`. -/
theorem parseLocation_direct_or_geocode (pf : String → Option ℚ) (fmt2 : ℚ → String)
    (client : Client) (req : GeocodeRequest) :
    (∀ (t0 t1 : String) (lat lng : ℚ),
      goFields req.Place = [t0, t1] → pf t0 = some lat → pf t1 = some lng →
      ParseLocationWithClient pf fmt2 client req =
        .ok { Lat := lat, Lng := lng, PlaceName := fmt2 lat ++ "," ++ fmt2 lng } ∧
      (∀ client' : Client, ParseLocationWithClient pf fmt2 client' req =
        ParseLocationWithClient pf fmt2 client req)) ∧
    ((goFields req.Place).length ≠ 2 →
      ParseLocationWithClient pf fmt2 client req = GeocodeWithClient pf client req) ∧
    (∀ t0 t1, goFields req.Place = [t0, t1] → pf t0 = none →
      ParseLocationWithClient pf fmt2 client req = GeocodeWithClient pf client req) ∧
    (∀ t0 t1 lat, goFields req.Place = [t0, t1] → pf t0 = some lat → pf t1 = none →
      ParseLocationWithClient pf fmt2 client req = GeocodeWithClient pf client req) := by
  refine ⟨?_, ?_, ?_, ?_⟩
  · intro t0 t1 lat lng hf hp0 hp1
    constructor
    · unfold ParseLocationWithClient
      rw [hf]
      simp only [hp0, hp1]
    · intro client'
      unfold ParseLocationWithClient
      rw [hf]
      simp only [hp0, hp1]
  · intro hlen
    rcases hL : goFields req.Place with _ | ⟨t0, _ | ⟨t1, _ | ⟨t2, rest⟩⟩⟩
    · unfold ParseLocationWithClient; rw [hL]
    · unfold ParseLocationWithClient; rw [hL]
    · rw [hL] at hlen; simp at hlen
    · unfold ParseLocationWithClient; rw [hL]
  · intro t0 t1 hf hp0
    unfold ParseLocationWithClient
    rw [hf]
    simp only [hp0]
  · intro t0 t1 lat hf hp0 hp1
    unfold ParseLocationWithClient
    rw [hf]
    simp only [hp0, hp1]

/-- A concrete float parser for witnesses: fails on "bad", parses
everything else as 1. -/
def demoPF : String → Option ℚ := fun s => if s = "bad" then none else some 1

/-- A concrete "%.2f" formatter for witnesses. -/
def demoFmt : ℚ → String := fun _ => "1.00"

/-- Witness for C6: a two-float place resolves directly even on the
all-failing client; a one-token place delegates to geocoding. -/
theorem parseLocation_direct_or_geocode_witness :
    ParseLocationWithClient demoPF demoFmt failingClient
        { Place := "35.6 139.7", APIKey := "key" } =
      .ok { Lat := 1, Lng := 1, PlaceName := demoFmt 1 ++ "," ++ demoFmt 1 } ∧
    ParseLocationWithClient demoPF demoFmt failingClient
        { Place := "tokyo", APIKey := "key" } =
      GeocodeWithClient demoPF failingClient { Place := "tokyo", APIKey := "key" } :=
  ⟨((parseLocation_direct_or_geocode demoPF demoFmt failingClient
      { Place := "35.6 139.7", APIKey := "key" }).1 "35.6" "139.7" 1 1
      (by decide) (by decide) (by decide)).1,
   (parseLocation_direct_or_geocode demoPF demoFmt failingClient
      { Place := "tokyo", APIKey := "key" }).2.1 (by decide)⟩

/-- C7: the geocoding error kinds: non-200 fails with the geocoding-API
kind; 200 with an empty Feature list fails with the not-found kind; a first
feature whose comma-separated coordinate string has fewer than two fields
fails with the invalid-coordinate-format kind; at least two fields never
produce the invalid-coordinate-format kind (extras are ignored); and the
three kinds are mutually distinct. -/
theorem geocode_error_kinds :
    (∀ (pf : String → Option ℚ) (client : Client) (req : GeocodeRequest)
        (s : Nat) (b : Body),
      req.Place ≠ "" →
      client (.geocode req.APIKey req.Place) = .ok { status := s, body := b } →
      s ≠ 200 →
      GeocodeWithClient pf client req = .error (.apiError s)) ∧
    (∀ (pf : String → Option ℚ) (client : Client) (req : GeocodeRequest) (b : Body),
      req.Place ≠ "" →
      client (.geocode req.APIKey req.Place) = .ok { status := 200, body := b } →
      b.decodeGeo = some { Feature := [] } →
      GeocodeWithClient pf client req = .error (.noResults req.Place)) ∧
    (∀ (pf : String → Option ℚ) (client : Client) (req : GeocodeRequest) (b : Body)
        (feature : GeoFeature) (rest : List GeoFeature),
      req.Place ≠ "" →
      client (.geocode req.APIKey req.Place) = .ok { status := 200, body := b } →
      b.decodeGeo = some { Feature := feature :: rest } →
      (goSplitComma feature.Coordinates).length < 2 →
      GeocodeWithClient pf client req = .error .invalidCoordinates) ∧
    (∀ (pf : String → Option ℚ) (client : Client) (req : GeocodeRequest) (b : Body)
        (feature : GeoFeature) (rest : List GeoFeature),
      req.Place ≠ "" →
      client (.geocode req.APIKey req.Place) = .ok { status := 200, body := b } →
      b.decodeGeo = some { Feature := feature :: rest } →
      2 ≤ (goSplitComma feature.Coordinates).length →
      GeocodeWithClient pf client req ≠ .error .invalidCoordinates) ∧
    (∀ (s : Nat) (p : String),
      (GeoError.apiError s ≠ .noResults p) ∧
      (GeoError.apiError s ≠ .invalidCoordinates) ∧
      (GeoError.noResults p ≠ .invalidCoordinates)) := by
  refine ⟨?_, ?_, ?_, ?_, ?_⟩
  · intro pf client req s b hne hcl hs
    unfold GeocodeWithClient
    rw [if_neg hne, hcl]
    simp only
    rw [if_pos hs]
  · intro pf client req b hne hcl hdec
    unfold GeocodeWithClient
    rw [if_neg hne, hcl]
    simp only [hdec]
    rw [if_neg (by simp)]
  · intro pf client req b feature rest hne hcl hdec hlen
    unfold GeocodeWithClient
    rw [if_neg hne, hcl]
    simp only [hdec]
    rw [if_neg (by simp)]
    rcases hS : goSplitComma feature.Coordinates with _ | ⟨c0, _ | ⟨c1, r⟩⟩
    · rfl
    · rfl
    · rw [hS] at hlen
      exfalso
      simp only [List.length_cons] at hlen
      omega
  · intro pf client req b feature rest hne hcl hdec hlen
    unfold GeocodeWithClient
    rw [if_neg hne, hcl]
    simp only [hdec]
    rw [if_neg (by simp)]
    rcases hS : goSplitComma feature.Coordinates with _ | ⟨c0, _ | ⟨c1, r⟩⟩
    · rw [hS] at hlen; simp at hlen
    · rw [hS] at hlen; simp at hlen
    · cases hp0 : pf c0 with
      | none => simp [hp0]
      | some lng =>
          cases hp1 : pf c1 with
          | none => simp [hp0, hp1]
          | some lat => simp [hp0, hp1]
  · intro s p
    exact ⟨by simp, by simp, by simp⟩

/-- Witness for C7 on concrete clients: a 404 status, an empty result list,
a one-field coordinate string, and a two-field coordinate string whose
parse fails with the parse kind, not the format kind. -/
theorem geocode_error_kinds_witness :
    GeocodeWithClient demoPF (fun _ => .ok { status := 404, body := .malformed })
        { Place := "tokyo", APIKey := "k" } = .error (.apiError 404) ∧
    GeocodeWithClient demoPF (fun _ => .ok { status := 200, body := .geo { Feature := [] } })
        { Place := "tokyo", APIKey := "k" } = .error (.noResults "tokyo") ∧
    GeocodeWithClient demoPF
        (fun _ => .ok { status := 200,
                        body := .geo { Feature := [({ Name := "t", Coordinates := "139" } : GeoFeature)] } })
        { Place := "tokyo", APIKey := "k" } = .error .invalidCoordinates ∧
    GeocodeWithClient (fun _ => none)
        (fun _ => .ok { status := 200,
                        body := .geo { Feature := [({ Name := "t", Coordinates := "139,35" } : GeoFeature)] } })
        { Place := "tokyo", APIKey := "k" } ≠ .error .invalidCoordinates :=
  ⟨geocode_error_kinds.1 demoPF _ _ 404 .malformed (by decide) rfl (by decide),
   geocode_error_kinds.2.1 demoPF _ _ (.geo { Feature := [] }) (by decide) rfl rfl,
   geocode_error_kinds.2.2.1 demoPF _ _ _ { Name := "t", Coordinates := "139" } []
     (by decide) rfl rfl (by decide),
   geocode_error_kinds.2.2.2.1 (fun _ => none) _ _ _
     { Name := "t", Coordinates := "139,35" } [] (by decide) rfl rfl (by decide)⟩

/-- C5: `ParseAmeshCommand` trims surrounding whitespace, drops every
whitespace-separated token beginning with `@`, rejoins the rest with single
spaces, and then recognizes exactly the texts starting with the prefix
"amesh " (place = trimmed remainder) or equal to "amesh" (default place
東京); everything else is unrecognized with empty place.  In particular
"ameshi" and "gameshow" are not recognized. -/
theorem parseAmeshCommand_spec :
    (∀ text : String, ParseAmeshCommand text = parseAmeshSpec text) ∧
    ParseAmeshCommand "amesh 東京" = { Place := "東京", IsAmesh := true } ∧
    ParseAmeshCommand "amesh" = { Place := "東京", IsAmesh := true } ∧
    ParseAmeshCommand "@bot amesh 大阪" = { Place := "大阪", IsAmesh := true } ∧
    ParseAmeshCommand "hello world" = { Place := "", IsAmesh := false } ∧
    ParseAmeshCommand "ameshi" = { Place := "", IsAmesh := false } ∧
    ParseAmeshCommand "gameshow" = { Place := "", IsAmesh := false } ∧
    ParseAmeshCommand "" = { Place := "", IsAmesh := false } ∧
    ParseAmeshCommand "@bot @user" = { Place := "", IsAmesh := false } := by
  refine ⟨fun text => rfl, ?_, ?_, ?_, ?_, ?_, ?_, ?_, ?_⟩ <;> decide

end HatoBot
